import Mathlib

set_option autoImplicit false
set_option maxRecDepth 4000

/-
Verification of the tycho-hedge DEX simulator core against its specification.

The Rust sources are shallowly embedded: machine words (U256, u64, u8) become
Nat (no overflowing arithmetic is performed on them by the embedded code paths),
Rust HashMap becomes an association list whose insertion replaces an existing
key in place and appends fresh keys (fixing one deterministic iteration order
for the otherwise arbitrary HashMap iteration order), f64 spot prices become
rational numbers, and fallible Rust functions return Except.  Code of the
repository that is not under src/ (the adapter contract evaluator, the ERC-20
slot derivation, the account storage tiers, the error enums) is modelled from
the specification and marked as such in the corresponding doc comments.
-/

namespace TychoHedge

/-- Raw byte strings (tycho_common Bytes): big-endian byte lists; well-formed
values have every entry below 256. -/
abbrev Bytes := List Nat

/-- EVM addresses (alloy Address), modelled by their numeric value. -/
abbrev Address := Nat

/-- 256-bit EVM words (alloy U256), modelled as Nat; the embedded code paths
perform no overflowing arithmetic on them. -/
abbrev U256 := Nat

/-- f64 spot prices are modelled as rational numbers; the claims settled here
do not depend on floating-point rounding. -/
abbrev F64 := ℚ

/-- Association-list model of Rust HashMap. -/
abbrev AMap (K V : Type) := List (K × V)

namespace AMap

variable {K V : Type} [DecidableEq K]

/-- The empty map. -/
def empty : AMap K V := []

/-- HashMap::get. Returns the value of the first (hence, by the insert
invariant, only) entry with the given key. -/
def find? : AMap K V → K → Option V
  | [], _ => none
  | (k, v) :: t, k0 => if k = k0 then some v else find? t k0

/-- HashMap::insert: replaces the value of an existing key in place, appends a
fresh key at the end. -/
def insert : AMap K V → K → V → AMap K V
  | [], k, v => [(k, v)]
  | (k0, v0) :: t, k, v => if k0 = k then (k, v) :: t else (k0, v0) :: insert t k v

/-- HashMap::contains_key. -/
def contains (m : AMap K V) (k : K) : Bool := (find? m k).isSome

/-- HashMap::extend: inserts every entry of the source, source entries winning. -/
def insertMany (m src : AMap K V) : AMap K V :=
  src.foldl (fun acc p => insert acc p.1 p.2) m

/-- HashMap::is_empty. -/
def isEmpty (m : AMap K V) : Bool := match m with | [] => true | _ => false

/-- The key list, in iteration order. -/
def keys (m : AMap K V) : List K := m.map Prod.fst

end AMap

/-- Big-endian interpretation of a byte string as an unsigned number
(tycho_common scalar decoding and U256::from_be_slice). -/
def beNat (b : Bytes) : Nat := b.foldl (fun acc x => acc * 256 + x) 0

/-- Big-endian two-complement interpretation of a byte string as a signed
number of 8 * length bits (tycho_common signed scalar decoding). -/
def beInt (b : Bytes) : Int :=
  match b with
  | [] => 0
  | x :: _ => if x ≥ 128 then (beNat b : Int) - (256 : Int) ^ b.length else (beNat b : Int)

/-- Modelled from the spec: i24_be_bytes_to_i32 (utils/uniswap, not under src/)
interprets raw big-endian bytes as a signed tick value. -/
def i24_be_bytes_to_i32 (b : Bytes) : Int := beInt b

/-- The 20-byte big-endian encoding of an address (Bytes::from(addr.as_slice())). -/
def addressToBytes (a : Address) : Bytes :=
  (List.range 20).map (fun i => a / 256 ^ (19 - i) % 256)

/-- Lowercase hex digit of a nibble. -/
def hexDigit (n : Nat) : Char := if n < 10 then Char.ofNat (48 + n) else Char.ofNat (87 + n)

/-- hex::encode of a byte string: two lowercase hex characters per byte. -/
def hexEncode (b : Bytes) : List Char :=
  b.foldr (fun x acc => hexDigit (x / 16 % 16) :: hexDigit (x % 16) :: acc) []

/-- Numeric value of a hex character, if any (both cases accepted, as by the
alloy address parser). -/
def hexCharVal (c : Char) : Option Nat :=
  if 48 ≤ c.toNat ∧ c.toNat ≤ 57 then some (c.toNat - 48)
  else if 97 ≤ c.toNat ∧ c.toNat ≤ 102 then some (c.toNat - 87)
  else if 65 ≤ c.toNat ∧ c.toNat ≤ 70 then some (c.toNat - 55)
  else none

/-- Value of a hex character list, if every character is a hex digit. -/
def hexVal : List Char → Option Nat
  | [] => some 0
  | c :: t =>
    match hexCharVal c, hexVal t with
    | some d, some n => some (d * 16 ^ t.length + n)
    | _, _ => none

/-- Basic account information (revm AccountInfo): balance, nonce, code hash and
optional code bytes. -/
structure AccountInfo where
  balance : U256
  nonce : Nat
  code_hash : Nat
  code : Option Bytes
deriving DecidableEq, Repr

/-- A state update for one account (account_storage StateUpdate): optional new
balance and optional map of changed storage slots to new values.  Used both to
apply external state changes and to describe reverse updates. -/
structure StateUpdate where
  storage : Option (AMap U256 U256) := none
  balance : Option U256 := none
deriving DecidableEq, Repr

/-- A block header bound to a database or pool
(engine_db/simulation_db.rs BlockHeader). -/
structure BlockHeader where
  number : Nat
  hash : Nat
  timestamp : Nat
deriving DecidableEq, Repr

/-- A DatabaseRef (revm) with error type E, modelled as a record of its four
read operations. -/
structure DatabaseRef (E : Type) where
  basic_ref : Address → Except E (Option AccountInfo)
  code_by_hash_ref : Nat → Except E Bytes
  storage_ref : Address → U256 → Except E U256
  block_hash_ref : Nat → Except E Nat

/-- A wrapper over an actual SimulationDB that allows overriding specific
storage slots (engine_db/simulation_db.rs OverriddenSimulationDB). -/
structure OverriddenSimulationDB (E : Type) where
  inner_db : DatabaseRef E
  overrides : AMap Address (AMap U256 U256)

namespace OverriddenSimulationDB

variable {E : Type}

/-- Delegates to the wrapped database. -/
def basic_ref (db : OverriddenSimulationDB E) (address : Address) :
    Except E (Option AccountInfo) :=
  db.inner_db.basic_ref address

/-- Delegates to the wrapped database. -/
def code_by_hash_ref (db : OverriddenSimulationDB E) (code_hash : Nat) :
    Except E Bytes :=
  db.inner_db.code_by_hash_ref code_hash

/-- Looks the requested slot up in the overrides map first; only on a miss
(either no overridden account or no overridden slot) the wrapped database is
consulted. -/
def storage_ref (db : OverriddenSimulationDB E) (address : Address) (index : U256) :
    Except E U256 :=
  match AMap.find? db.overrides address with
  | none => db.inner_db.storage_ref address index
  | some slot_overrides =>
    match AMap.find? slot_overrides index with
    | some value => .ok value
    | none => db.inner_db.storage_ref address index

/-- Delegates to the wrapped database. -/
def block_hash_ref (db : OverriddenSimulationDB E) (number : Nat) :
    Except E Nat :=
  db.inner_db.block_hash_ref number

end OverriddenSimulationDB

/-- A storage slot as reported by revm in a successful execution result
(EvmStorageSlot): the value before and after the transaction. -/
structure EvmStorageSlot where
  original_value : U256
  present_value : U256
deriving DecidableEq, Repr

/-- EvmStorageSlot::is_changed. -/
def EvmStorageSlot.is_changed (s : EvmStorageSlot) : Bool :=
  decide (s.original_value ≠ s.present_value)

/-- One touched account in a revm execution result: its post-transaction info
balance and its touched storage slots. -/
structure EvmAccount where
  balance : U256
  storage : AMap U256 EvmStorageSlot
deriving DecidableEq, Repr

/-- Result of a successful simulation (tycho-simulation SimulationResult). -/
structure SimulationResult where
  result : Bytes
  state_updates : AMap Address StateUpdate
  gas_used : Nat
  transient_storage : AMap Address (AMap U256 U256)
deriving DecidableEq, Repr

/-- The changed-slot extraction loop of interpret_evm_success: for every touched
slot with is_changed, record the present value. -/
def changedSlotUpdates (storage : AMap U256 EvmStorageSlot) : AMap U256 U256 :=
  storage.foldl
    (fun acc p => if p.2.is_changed then AMap.insert acc p.1 p.2.present_value else acc)
    AMap.empty

/-- The per-account record built by interpret_evm_success: the new balance is
always emitted; the storage map is emitted only when revm reported storage and
at least one slot is actually changed. -/
def accountUpdateOf (account : EvmAccount) : StateUpdate :=
  { balance := some account.balance
    storage :=
      if AMap.isEmpty account.storage then none
      else
        let slot_updates := changedSlotUpdates account.storage
        if AMap.isEmpty slot_updates then none else some slot_updates }

/-- interpret_evm_success (tycho-simulation/src/evm/simulation.rs): extracts the
state diff, output and net gas from a successful revm execution. -/
def interpret_evm_success (gas_used gas_refunded : Nat) (output : Bytes)
    (state : AMap Address EvmAccount)
    (transient_storage : AMap Address (AMap U256 U256)) : SimulationResult :=
  { result := output
    state_updates :=
      state.foldl (fun acc p => AMap.insert acc p.1 (accountUpdateOf p.2)) AMap.empty
    gas_used := gas_used - gas_refunded
    transient_storage := transient_storage }

/-- Modelled from the spec: one account record of AccountStorage
(account_storage.rs is not under src/) — an AccountInfo, a permanent-storage
map, a temporary-storage map and a mocked flag (spec section 3). -/
structure AccountRecord where
  info : AccountInfo
  permanent_storage : AMap U256 U256
  temp_storage : AMap U256 U256
  mocked : Bool
deriving DecidableEq, Repr

/-- Modelled from the spec: AccountStorage (account_storage.rs is not under
src/), the per-account storage tiers of the simulation database. -/
structure AccountStorage where
  accounts : AMap Address AccountRecord
deriving DecidableEq, Repr

namespace AccountStorage

/-- AccountStorage::get_account_info. -/
def get_account_info (s : AccountStorage) (address : Address) : Option AccountInfo :=
  (AMap.find? s.accounts address).map (fun r => r.info)

/-- AccountStorage::get_permanent_storage. -/
def get_permanent_storage (s : AccountStorage) (address : Address) (index : U256) :
    Option U256 :=
  (AMap.find? s.accounts address).bind (fun r => AMap.find? r.permanent_storage index)

/-- AccountStorage::clear_temp_storage: drops the temporary tier of every
account. -/
def clear_temp_storage (s : AccountStorage) : AccountStorage :=
  { accounts := s.accounts.map (fun p => (p.1, { p.2 with temp_storage := AMap.empty })) }

/-- Modelled from the spec: AccountStorage::update_account (account_storage.rs
is not under src/).  The spec states that update_state "applies updates into
permanent storage, clears temporary storage" (section 4.1), so the update is
written into the permanent tier of the referenced account (when it exists) and
the temporary tier is cleared. -/
def update_account (s : AccountStorage) (address : Address) (update : StateUpdate) :
    AccountStorage :=
  let s :=
    match AMap.find? s.accounts address with
    | none => s
    | some record =>
      let record :=
        match update.balance with
        | some b => { record with info := { record.info with balance := b } }
        | none => record
      let record :=
        match update.storage with
        | some stor =>
          { record with permanent_storage := AMap.insertMany record.permanent_storage stor }
        | none => record
      { accounts := AMap.insert s.accounts address record }
  s.clear_temp_storage

end AccountStorage

/-- The RPC-backed simulation database (engine_db/simulation_db.rs
SimulationDB); the RPC client itself is irrelevant to the settled claims and
is not part of the model. -/
structure SimulationDB where
  account_storage : AccountStorage
  block : Option BlockHeader
deriving DecidableEq, Repr

/-- The reverse entry recorded by SimulationDB::update_state for one referenced
account: the previous balance when the account is known, and for each
referenced slot the previous permanent value when present. -/
def revertEntryFor (storage : AccountStorage) (address : Address)
    (update_info : StateUpdate) : StateUpdate :=
  { balance := (storage.get_account_info address).map (fun i => i.balance)
    storage :=
      update_info.storage.map (fun stor =>
        stor.foldl
          (fun rs q =>
            match storage.get_permanent_storage address q.1 with
            | some s => AMap.insert rs q.1 s
            | none => rs)
          AMap.empty) }

/-- One iteration of the update_state loop: record the reverse entry, then
apply the update to the account storage. -/
def updateStateStep (acc : AMap Address StateUpdate × SimulationDB)
    (p : Address × StateUpdate) : AMap Address StateUpdate × SimulationDB :=
  (AMap.insert acc.1 p.1 (revertEntryFor acc.2.account_storage p.1 p.2),
   { acc.2 with account_storage := acc.2.account_storage.update_account p.1 p.2 })

/-- SimulationDB::update_state: sets the bound block, then for every update
records the previous values and applies the update.  Returns the reverse-update
set together with the updated database. -/
def SimulationDB.update_state (db : SimulationDB) (updates : AMap Address StateUpdate)
    (block : BlockHeader) : AMap Address StateUpdate × SimulationDB :=
  updates.foldl updateStateStep (AMap.empty, { db with block := some block })

/-- Modelled from the spec: the snapshot-decoding error taxonomy (section 7;
protocol/errors.rs is not under src/). -/
inductive InvalidSnapshotError where
  | MissingAttribute (name : String)
  | ValueError (msg : String)
  | VMError (msg : String)
deriving DecidableEq, Repr

/-- Converts an Option into an Except with the given error on None
(the ok_or_else pattern of the decoders). -/
def optionOk {E A : Type} (o : Option A) (e : E) : Except E A :=
  match o with
  | some a => .ok a
  | none => .error e

/-- A protocol state snapshot (tycho ResponseProtocolState): dynamic attributes
and component balances. -/
structure ResponseProtocolState where
  component_id : String
  attributes : AMap String Bytes
  balances : AMap Bytes Bytes
deriving DecidableEq, Repr

/-- A protocol component (tycho ProtocolComponent).  The protocol_system string
is carried as its UTF-8 byte list, which is what the adapter-address derivation
consumes. -/
structure ProtocolComponent where
  id : String
  protocol_system : Bytes
  tokens : List Bytes
  contract_ids : List Bytes
  static_attributes : AMap String Bytes
deriving DecidableEq, Repr

/-- A full component-and-state snapshot (tycho ComponentWithState). -/
structure ComponentWithState where
  state : ResponseProtocolState
  component : ProtocolComponent
deriving DecidableEq, Repr

/-- strip_prefix of the UTF-8 bytes of "vm:" from the protocol system name
(vm/tycho_decoder.rs). -/
def stripVmTag (protocol_system : Bytes) : Bytes :=
  if protocol_system.take 3 = [118, 109, 58] then protocol_system.drop 3
  else protocol_system

/-- The Rust format specifier with fill 0, right alignment and width 40: pads
with zeros on the left up to 40 characters, and leaves longer strings alone. -/
def padZeroLeft40 (s : List Char) : List Char :=
  if 40 ≤ s.length then s else List.replicate (40 - s.length) '0' ++ s

/-- Address::from_str on a bare hex string: exactly 40 hex characters. -/
def addressFromHex (s : List Char) : Option Address :=
  if s.length = 40 then hexVal s else none

/-- The adapter contract address computed when decoding a VM pool snapshot
(vm/tycho_decoder.rs lines 135-154): hex-encode the protocol name (after
stripping a leading "vm:"), pad to 40 characters, parse as an address. -/
def adapter_contract_address (protocol_system : Bytes) :
    Except InvalidSnapshotError Address :=
  match addressFromHex (padZeroLeft40 (hexEncode (stripVmTag protocol_system))) with
  | some a => .ok a
  | none => .error (.ValueError "Error converting protocol name to address")

/-- The adapter address hex string as claim C6 words it: the first 40 hex
characters of the hex encoding of the protocol name bytes, zero-padded on the
right to 40 characters.  Stated from the words of the claim, to be compared
with the source definition above. -/
def claimedAdapterAddressHex (protocol_name : Bytes) : List Char :=
  (hexEncode protocol_name ++ List.replicate 40 '0').take 40

/-- One initialized tick (utils/uniswap TickInfo, not under src/; modelled from
the spec: an integer-indexed grid point carrying a net liquidity delta). -/
structure TickInfo where
  index : Int
  net_liquidity : Int
deriving DecidableEq, Repr

/-- TickInfo::new. -/
def TickInfo.new (index : Int) (net_liquidity : Int) : TickInfo :=
  { index := index, net_liquidity := net_liquidity }

/-- Modelled from the spec: the Uniswap V4 triple fee model (uniswap_v4/state.rs
is not under src/). -/
structure UniswapV4Fees where
  zero2one : Nat
  one2zero : Nat
  lp_fee : Nat
deriving DecidableEq, Repr

/-- UniswapV4Fees::new. -/
def UniswapV4Fees.new (zero2one one2zero lp_fee : Nat) : UniswapV4Fees :=
  { zero2one := zero2one, one2zero := one2zero, lp_fee := lp_fee }

/-- Modelled from the spec: the populated Uniswap V4 analytical pool state
(uniswap_v4/state.rs is not under src/) — liquidity, sqrt price, fees, current
tick, tick spacing and the sorted tick list. -/
structure UniswapV4State where
  liquidity : Nat
  sqrt_price : U256
  fees : UniswapV4Fees
  tick : Int
  tick_spacing : Int
  ticks : List TickInfo
deriving DecidableEq, Repr

/-- UniswapV4State::new. -/
def UniswapV4State.new (liquidity : Nat) (sqrt_price : U256) (fees : UniswapV4Fees)
    (tick : Int) (tick_spacing : Int) (ticks : List TickInfo) : UniswapV4State :=
  { liquidity := liquidity, sqrt_price := sqrt_price, fees := fees, tick := tick,
    tick_spacing := tick_spacing, ticks := ticks }

/-- Whether the second character list starts with the first. -/
def hasLeading : List Char → List Char → Bool
  | [], _ => true
  | _ :: _, [] => false
  | a :: s, b :: t => a = b && hasLeading s t

/-- Splitting a character list on the slash character (str::split of the tick
attribute keys). -/
def splitOnSlash : List Char → List (List Char)
  | [] => [[]]
  | c :: t =>
    if c = '/' then [] :: splitOnSlash t
    else
      match splitOnSlash t with
      | [] => [[c]]
      | h :: r => (c :: h) :: r

/-- Decimal digit value of a character, if any. -/
def decDigitVal (c : Char) : Option Nat :=
  if 48 ≤ c.toNat ∧ c.toNat ≤ 57 then some (c.toNat - 48) else none

/-- Value of a decimal digit list, if every character is a digit. -/
def decVal : List Char → Option Nat
  | [] => some 0
  | c :: t =>
    match decDigitVal c, decVal t with
    | some d, some n => some (d * 10 ^ t.length + n)
    | _, _ => none

/-- str::parse into an i32: optional sign, decimal digits, range check. -/
def parseI32 (s : List Char) : Option Int :=
  match s with
  | [] => none
  | c :: t =>
    if c = '-' then
      if t = [] then none
      else (decVal t).bind (fun n => if n ≤ 2 ^ 31 then some (-(n : Int)) else none)
    else if c = '+' then
      if t = [] then none
      else (decVal t).bind (fun n => if n < 2 ^ 31 then some ((n : Int)) else none)
    else (decVal (c :: t)).bind (fun n => if n < 2 ^ 31 then some ((n : Int)) else none)

/-- The UTF-8 characters of the tick attribute key tag "ticks/". -/
def tickTag : List Char := ['t', 'i', 'c', 'k', 's', '/']

/-- The tick-collection pass of the Uniswap V4 decoder: every attribute whose
key starts with "ticks/" contributes a TickInfo with the parsed index and the
signed big-endian value; the first index parse failure aborts the collection
(the Result collect of the source). -/
def collectTicks : List (String × Bytes) → Except InvalidSnapshotError (List TickInfo)
  | [] => .ok []
  | (key, value) :: rest =>
    if hasLeading tickTag key.data then
      match (splitOnSlash key.data).get? 1 with
      | none => collectTicks rest
      | some idxChars =>
        match parseI32 idxChars with
        | some idx =>
          match collectTicks rest with
          | .ok ts => .ok (TickInfo.new idx (beInt value) :: ts)
          | .error e => .error e
        | none => .error (.ValueError "invalid tick index")
    else collectTicks rest

/-- Stable insertion of a tick into an index-sorted list, placing it after any
tick of equal index. -/
def insertTickSorted (t : TickInfo) : List TickInfo → List TickInfo
  | [] => [t]
  | h :: r => if t.index < h.index then t :: h :: r else h :: insertTickSorted t r

/-- Vec::sort_by_key on the tick index: a stable sort, modelled by insertion
sort. -/
def sortTicks (l : List TickInfo) : List TickInfo :=
  l.foldl (fun acc t => insertTickSorted t acc) []

/-- UniswapV4State::try_from_with_block (uniswap_v4/tycho_decoder.rs): decodes
a snapshot into a UniswapV4State or fails with the first missing attribute, in
source order. -/
def UniswapV4State.try_from_with_block (snapshot : ComponentWithState) :
    Except InvalidSnapshotError UniswapV4State := do
  let liq ← optionOk (AMap.find? snapshot.state.attributes "liquidity")
    (.MissingAttribute "liquidity")
  let liquidity := beNat liq
  let spb ← optionOk (AMap.find? snapshot.state.attributes "sqrt_price_x96")
    (.MissingAttribute "sqrt_price")
  let sqrt_price := beNat spb
  let lpb ← optionOk (AMap.find? snapshot.component.static_attributes "key_lp_fee")
    (.MissingAttribute "key_lp_fee")
  let lp_fee := beNat lpb
  let z2ob ← optionOk (AMap.find? snapshot.state.attributes "protocol_fees/zero2one")
    (.MissingAttribute "protocol_fees/zero2one")
  let zero2one_protocol_fee := beNat z2ob
  let o2zb ← optionOk (AMap.find? snapshot.state.attributes "protocol_fees/one2zero")
    (.MissingAttribute "protocol_fees/one2zero")
  let one2zero_protocol_fee := beNat o2zb
  let fees := UniswapV4Fees.new zero2one_protocol_fee one2zero_protocol_fee lp_fee
  let tsb ← optionOk (AMap.find? snapshot.component.static_attributes "tick_spacing")
    (.MissingAttribute "tick_spacing")
  let tick_spacing := beInt tsb
  let tkb ← optionOk (AMap.find? snapshot.state.attributes "tick")
    (.MissingAttribute "tick")
  let tick := i24_be_bytes_to_i32 tkb
  let ticks ←
    match collectTicks snapshot.state.attributes with
    | .ok ts =>
      if ts.isEmpty then Except.error (.MissingAttribute "tick_liquidities")
      else Except.ok (ts.filter (fun t => decide (t.net_liquidity ≠ 0)))
    | .error _ => Except.error (.MissingAttribute "tick_liquidities")
  let ticks := sortTicks ticks
  .ok (UniswapV4State.new liquidity sqrt_price fees tick tick_spacing ticks)

/-- The pool capability flags (vm/models.rs Capability). -/
inductive Capability where
  | SellSide
  | BuySide
  | PriceFunction
  | FeeOnTransfer
  | ConstantPrice
  | TokenBalanceIndependent
  | ScaledPrice
  | HardLimits
  | MarginalPrice
deriving DecidableEq, Repr

/-- The compiler convention used for map-slot hashing (ContractCompiler). -/
inductive ContractCompiler where
  | Solidity
  | Vyper
deriving DecidableEq, Repr

/-- The balance and allowance base slots of an ERC-20 token contract
(erc20_token.rs ERC20Slots, not under src/; modelled from the spec section
4.3: slot 0 holds balances and slot 1 allowances for standard tokens). -/
structure ERC20Slots where
  balances_slot : U256
  allowances_slot : U256
deriving DecidableEq, Repr

/-- ERC20Slots::new. -/
def ERC20Slots.new (balances_slot allowances_slot : U256) : ERC20Slots :=
  { balances_slot := balances_slot, allowances_slot := allowances_slot }

/-- An ERC-20 token (models.rs Token): address bytes, decimal exponent, symbol
and transfer-gas estimate. -/
structure Token where
  address : Bytes
  decimals : Nat
  symbol : String
  gas : Nat
deriving DecidableEq, Repr

/-- The bound adapter contract handle (vm/tycho_simulation_contract.rs, not
under src/): the adapter address, and the shared engine state of which only
the temporary storage tier matters to the embedded paths (update_pool_state
clears it).  The adapter entry points themselves are the VMEnv oracle. -/
structure AdapterContract where
  address : Address
  engine_temp_storage : AMap Address (AMap U256 U256)
deriving DecidableEq, Repr

/-- The per-pool VM simulation state (vm/state.rs EVMPoolState). -/
structure EVMPoolState where
  id : String
  tokens : List Bytes
  block : BlockHeader
  balances : AMap Address U256
  balance_owner : Option Address
  spot_prices : AMap (Address × Address) F64
  capabilities : List Capability
  block_lasting_overwrites : AMap Address (AMap U256 U256)
  involved_contracts : List Address
  contract_balances : AMap Address (AMap Address U256)
  token_storage_slots : AMap Address (ERC20Slots × ContractCompiler)
  manual_updates : Bool
  adapter_contract : AdapterContract
deriving DecidableEq

/-- The result of a quote (protocol/models.rs GetAmountOutResult, not under
src/; modelled from the spec: received amount, gas and the new pool state).
BigUint amounts are Nat. -/
structure GetAmountOutResult where
  amount : Nat
  gas : Nat
  new_state : EVMPoolState
deriving DecidableEq

/-- GetAmountOutResult::new (u256_to_biguint is the identity on the Nat
model). -/
def GetAmountOutResult.new (amount gas : Nat) (new_state : EVMPoolState) :
    GetAmountOutResult :=
  { amount := amount, gas := gas, new_state := new_state }

/-- Modelled from the spec: the simulation error taxonomy (section 7;
protocol/errors.rs is not under src/).  Only the variants raised by the
embedded code paths are modelled; InvalidInput carries the best-effort clamped
result. -/
inductive SimulationError where
  | FatalError (msg : String)
  | InvalidInput (msg : String) (result : Option GetAmountOutResult)
deriving DecidableEq

/-- Modelled from the spec: a delta transition failure (section 7;
protocol/errors.rs is not under src/), wrapping the simulation error raised
while re-simulating. -/
inductive TransitionError where
  | simulation (e : SimulationError)
deriving DecidableEq

/-- A trade result of the adapter swap entry point (Trade). -/
structure Trade where
  received_amount : U256
  gas_used : U256
  price : F64
deriving DecidableEq

/-- Modelled from the spec: the adapter contract ABI (section 6) — the price,
get_limits and swap entry points, evaluated through the EVM host
(vm/tycho_simulation_contract.rs is not under src/) — together with the
keccak-based ERC-20 storage slot derivation (erc20_token.rs, not under src/).
All are oracle functions of the embedding. -/
structure VMEnv where
  get_limits : String → Address → Address → Nat →
    Option (AMap Address (AMap U256 U256)) → Except SimulationError (U256 × U256)
  price : String → Address → Address → List U256 → Nat →
    Option (AMap Address (AMap U256 U256)) → Except SimulationError (List F64)
  swap : String → Address → Address → Bool → U256 → Nat →
    Option (AMap Address (AMap U256 U256)) →
    Except SimulationError (Trade × AMap Address StateUpdate)
  balance_slot : ERC20Slots → ContractCompiler → Address → U256
  allowance_slot : ERC20Slots → ContractCompiler → Address → Address → U256

/-- Modelled from the spec: vm/constants.rs is not under src/.  The maximum
token balance seeded for the external account. -/
def MAX_BALANCE : U256 := 2 ^ 256 - 1

/-- Modelled from the spec: the externally-owned account used as the swap
sender (vm/constants.rs, not under src/). -/
def EXTERNAL_ACCOUNT : Address := 0xf847a638e44186f3287ee9f8caf73ff4d4b80784

/-- bytes_to_address (protocol/utils.rs, not under src/): an address is exactly
20 bytes. -/
def bytes_to_address (b : Bytes) : Except SimulationError Address :=
  if b.length = 20 then .ok (beNat b)
  else .error (.FatalError "Invalid address: must be 20 bytes")

/-- Address parsing of the pool id string (str::parse into an alloy Address):
an optional 0x tag followed by exactly 40 hex characters. -/
def parseAddressString (s : String) : Option Address :=
  let cs := s.data
  let cs := if cs.take 2 = ['0', 'x'] then cs.drop 2 else cs
  addressFromHex cs

/-- The overwrite factory (erc20_token.rs ERC20OverwriteFactory, not under
src/; modelled from the spec section 4.3): collects the storage writes that
spoof balances and allowances of one token contract. -/
structure ERC20OverwriteFactory where
  token_address : Address
  overwrites : AMap U256 U256
  slots : ERC20Slots
  compiler : ContractCompiler
deriving DecidableEq, Repr

/-- ERC20OverwriteFactory::new. -/
def ERC20OverwriteFactory.new (token : Address) (slots : ERC20Slots)
    (compiler : ContractCompiler) : ERC20OverwriteFactory :=
  { token_address := token, overwrites := AMap.empty, slots := slots, compiler := compiler }

/-- ERC20OverwriteFactory::set_balance: writes the balance slot of the owner. -/
def ERC20OverwriteFactory.set_balance (f : ERC20OverwriteFactory) (env : VMEnv)
    (balance : U256) (owner : Address) : ERC20OverwriteFactory :=
  { f with overwrites :=
      AMap.insert f.overwrites (env.balance_slot f.slots f.compiler owner) balance }

/-- ERC20OverwriteFactory::set_allowance: writes the allowance slot of the
(spender, owner) pair. -/
def ERC20OverwriteFactory.set_allowance (f : ERC20OverwriteFactory) (env : VMEnv)
    (allowance : U256) (spender owner : Address) : ERC20OverwriteFactory :=
  { f with overwrites :=
      AMap.insert f.overwrites (env.allowance_slot f.slots f.compiler spender owner) allowance }

/-- ERC20OverwriteFactory::get_overwrites: the collected writes, keyed by the
token address. -/
def ERC20OverwriteFactory.get_overwrites (f : ERC20OverwriteFactory) :
    AMap Address (AMap U256 U256) :=
  [(f.token_address, f.overwrites)]

/-- EVMPoolState::merge: per-address union of overwrite maps, the source
winning slot-wise. -/
def mergeOverwrites (target source : AMap Address (AMap U256 U256)) :
    AMap Address (AMap U256 U256) :=
  source.foldl
    (fun merged p =>
      AMap.insert merged p.1
        (AMap.insertMany ((AMap.find? merged p.1).getD AMap.empty) p.2))
    target

/-- The component-balance loop of get_balance_overwrites: one overwrite-factory
write per (token, balance) entry, failing when an involved token has no
discovered storage slots. -/
def balanceOverwritesFor (env : VMEnv) (s : EVMPoolState) (address : Address) :
    List (Address × U256) → AMap Address (AMap U256 U256) →
    Except SimulationError (AMap Address (AMap U256 U256))
  | [], acc => .ok acc
  | (token, bal) :: rest, acc =>
    let slotsRes : Except SimulationError (ERC20Slots × ContractCompiler) :=
      if s.involved_contracts.contains token then
        optionOk (AMap.find? s.token_storage_slots token)
          (.FatalError "Failed to get balance overwrites: Token storage slots not found")
      else .ok (ERC20Slots.new 0 1, ContractCompiler.Solidity)
    match slotsRes with
    | .error e => .error e
    | .ok (slots, compiler) =>
      let f := (ERC20OverwriteFactory.new token slots compiler).set_balance env bal address
      balanceOverwritesFor env s address rest (AMap.insertMany acc f.get_overwrites)

/-- The inner token loop of the contract-balance part of
get_balance_overwrites. -/
def contractOverwritesInner (env : VMEnv) (s : EVMPoolState) (contract : Address) :
    List (Address × U256) → AMap Address (AMap U256 U256) → AMap Address (AMap U256 U256)
  | [], acc => acc
  | (token, balance) :: rest, acc =>
    let (slots, compiler) := (AMap.find? s.token_storage_slots token).getD
      (ERC20Slots.new 0 1, ContractCompiler.Solidity)
    let f := (ERC20OverwriteFactory.new token slots compiler).set_balance env balance contract
    contractOverwritesInner env s contract rest (AMap.insertMany acc f.get_overwrites)

/-- The contract-balance loop of get_balance_overwrites. -/
def contractOverwrites (env : VMEnv) (s : EVMPoolState) :
    List (Address × AMap Address U256) → AMap Address (AMap U256 U256) →
    AMap Address (AMap U256 U256)
  | [], acc => acc
  | (contract, balances) :: rest, acc =>
    contractOverwrites env s rest (contractOverwritesInner env s contract balances acc)

/-- EVMPoolState::get_balance_overwrites: spoofed balances for the balance
owner (or the pool address parsed from the id) from component balances, then
for every tracked contract from contract balances. -/
def EVMPoolState.get_balance_overwrites (s : EVMPoolState) (env : VMEnv) :
    Except SimulationError (AMap Address (AMap U256 U256)) := do
  let address ←
    match s.balance_owner with
    | some owner => Except.ok (some owner)
    | none =>
      if AMap.isEmpty s.contract_balances then
        match parseAddressString s.id with
        | some a => Except.ok (some a)
        | none =>
          let e := SimulationError.FatalError
            "Failed to get balance overwrites: Pool ID is not an address"
          Except.error e
      else Except.ok none
  let base ←
    match address with
    | some addr => balanceOverwritesFor env s addr s.balances AMap.empty
    | none => Except.ok AMap.empty
  .ok (contractOverwrites env s s.contract_balances base)

/-- EVMPoolState::get_token_overwrites: balance overwrites (unless the pool is
token-balance independent) merged with a huge spoofed balance and allowance of
the sell token for the external account. -/
def EVMPoolState.get_token_overwrites (s : EVMPoolState) (env : VMEnv)
    (tokens : List Address) (max_amount : U256) :
    Except SimulationError (AMap Address (AMap U256 U256)) := do
  let sell_token := tokens.headD 0
  let res ←
    if s.capabilities.contains Capability.TokenBalanceIndependent then
      pure ([] : List (AMap Address (AMap U256 U256)))
    else do
      let b ← s.get_balance_overwrites env
      pure [b]
  let (slots, compiler) := (AMap.find? s.token_storage_slots sell_token).getD
    (ERC20Slots.new 0 1, ContractCompiler.Solidity)
  let f := ERC20OverwriteFactory.new sell_token slots compiler
  let f := f.set_balance env max_amount EXTERNAL_ACCOUNT
  let f := f.set_allowance env max_amount s.adapter_contract.address EXTERNAL_ACCOUNT
  let res := res ++ [f.get_overwrites]
  pure (res.foldl (fun acc ow => mergeOverwrites acc ow) AMap.empty)

/-- EVMPoolState::get_overwrites: block-lasting overwrites merged with the
token overwrites, the latter winning. -/
def EVMPoolState.get_overwrites (s : EVMPoolState) (env : VMEnv)
    (tokens : List Address) (max_amount : U256) :
    Except SimulationError (AMap Address (AMap U256 U256)) := do
  let token_overwrites ← s.get_token_overwrites env tokens max_amount
  pure (mergeOverwrites s.block_lasting_overwrites token_overwrites)

/-- EVMPoolState::get_amount_limits: the adapter get_limits entry point on the
(sell, buy) pair. -/
def EVMPoolState.get_amount_limits (s : EVMPoolState) (env : VMEnv)
    (tokens : List Address) (overwrites : Option (AMap Address (AMap U256 U256))) :
    Except SimulationError (U256 × U256) :=
  env.get_limits s.id (tokens.headD 0) ((tokens.drop 1).headD 0) s.block.number overwrites

/-- EVMPoolState::get_decimals: the decimals of a token looked up by its
address bytes. -/
def EVMPoolState.get_decimals (s : EVMPoolState) (tokens : AMap Bytes Token)
    (address : Address) : Except SimulationError Nat :=
  optionOk ((AMap.find? tokens (addressToBytes address)).map (fun t => t.decimals))
    (.FatalError ("Failed to scale spot prices! Pool: " ++ s.id ++ " token is not available"))

/-- Storing one computed spot price into the cache. -/
def EVMPoolState.insertSpotPrice (s : EVMPoolState) (key : Address × Address)
    (price : F64) : EVMPoolState :=
  { s with spot_prices := AMap.insert s.spot_prices key price }

/-- One iteration of the set_spot_prices loop for an ordered (sell, buy) pair:
build the overlay, query the sell limit, query the adapter price, scale it by
the decimal difference unless the pool reports scaled prices, store it. -/
def EVMPoolState.spotPriceStep (s : EVMPoolState) (env : VMEnv)
    (tokens : AMap Bytes Token) (sell_bytes buy_bytes : Bytes) :
    Except SimulationError EVMPoolState := do
  let sell_token_address ← bytes_to_address sell_bytes
  let buy_token_address ← bytes_to_address buy_bytes
  let overwrites ← s.get_overwrites env [sell_token_address, buy_token_address]
    (MAX_BALANCE / 100)
  let (sell_amount_limit, _) ← s.get_amount_limits env
    [sell_token_address, buy_token_address] (some overwrites)
  let price_result ← env.price s.id sell_token_address buy_token_address
    [sell_amount_limit / 100] s.block.number (some overwrites)
  let price ←
    if s.capabilities.contains Capability.ScaledPrice then
      optionOk price_result.head? (.FatalError "Calculated price array is empty")
    else do
      let unscaled ← optionOk price_result.head?
        (.FatalError "Calculated price array is empty")
      let sell_token_decimals ← s.get_decimals tokens sell_token_address
      let buy_token_decimals ← s.get_decimals tokens buy_token_address
      pure (unscaled * (10 : F64) ^ sell_token_decimals / (10 : F64) ^ buy_token_decimals)
  pure (s.insertSpotPrice (sell_token_address, buy_token_address) price)

/-- All ordered pairs of distinct positions, in iteration order
(itertools permutations of size 2). -/
def perms2 {α : Type} (xs : List α) : List (α × α) :=
  xs.enum.flatMap (fun p => xs.enum.filterMap (fun q =>
    if p.1 ≠ q.1 then some (p.2, q.2) else none))

/-- The pair loop of set_spot_prices; a failing iteration aborts, keeping the
mutations of the earlier iterations. -/
def setSpotPricesGo (env : VMEnv) (tokens : AMap Bytes Token) :
    List (Bytes × Bytes) → EVMPoolState → EVMPoolState × Option SimulationError
  | [], s => (s, none)
  | (a, b) :: rest, s =>
    match s.spotPriceStep env tokens a b with
    | .error e => (s, some e)
    | .ok s2 => setSpotPricesGo env tokens rest s2

/-- EVMPoolState::set_spot_prices: requires the PriceFunction capability, then
recomputes the price of every ordered token pair. -/
def EVMPoolState.set_spot_prices (s : EVMPoolState) (env : VMEnv)
    (tokens : AMap Bytes Token) : EVMPoolState × Option SimulationError :=
  if s.capabilities.contains Capability.PriceFunction then
    setSpotPricesGo env tokens (perms2 s.tokens) s
  else (s, some (.FatalError "capability PriceFunction not supported"))

/-- The balances argument of delta_transition (models.rs Balances). -/
structure Balances where
  component_balances : AMap String (AMap Bytes Bytes)
  account_balances : AMap Bytes (AMap Bytes Bytes)
deriving DecidableEq, Repr

/-- The token loop of the balance update: decode each token address and insert
the big-endian balance; a decode failure aborts, keeping earlier inserts. -/
def insertBalancesInto : List (Bytes × Bytes) → AMap Address U256 →
    AMap Address U256 × Option SimulationError
  | [], entry => (entry, none)
  | (token, bal) :: rest, entry =>
    match bytes_to_address token with
    | .error _ => (entry, some (.FatalError "Invalid token address in balance update"))
    | .ok addr => insertBalancesInto rest (AMap.insert entry addr (beNat bal))

/-- The involved-contract loop of the balance update for pools tracking
contract balances. -/
def applyAccountBalances (balances : Balances) : List Address →
    AMap Address (AMap Address U256) →
    AMap Address (AMap Address U256) × Option SimulationError
  | [], cb => (cb, none)
  | contract :: rest, cb =>
    match AMap.find? balances.account_balances (addressToBytes contract) with
    | none => applyAccountBalances balances rest cb
    | some bals =>
      let entry := (AMap.find? cb contract).getD AMap.empty
      let (entry, err) := insertBalancesInto bals entry
      let cb := AMap.insert cb contract entry
      match err with
      | some e => (cb, some e)
      | none => applyAccountBalances balances rest cb

/-- EVMPoolState::update_pool_state: clear the engine temporary storage and the
block-lasting overwrites, merge the balance updates of the current block into
component or contract balances, then recompute the spot prices.  In
receiver-passing style: a failure keeps the mutations applied so far. -/
def EVMPoolState.update_pool_state (s : EVMPoolState) (env : VMEnv)
    (tokens : AMap Bytes Token) (balances : Balances) :
    EVMPoolState × Option SimulationError :=
  let s := { s with
    adapter_contract := { s.adapter_contract with engine_temp_storage := AMap.empty },
    block_lasting_overwrites := AMap.empty }
  let step : EVMPoolState × Option SimulationError :=
    if AMap.isEmpty s.balances then
      let (cb, err) := applyAccountBalances balances s.involved_contracts s.contract_balances
      ({ s with contract_balances := cb }, err)
    else
      match AMap.find? balances.component_balances s.id with
      | some bals =>
        let (b, err) := insertBalancesInto bals s.balances
        ({ s with balances := b }, err)
      | none => (s, none)
  match step with
  | (s2, some e) => (s2, some e)
  | (s2, none) => s2.set_spot_prices env tokens

/-- A protocol state delta (tycho ProtocolStateDelta). -/
structure ProtocolStateDelta where
  component_id : String
  updated_attributes : AMap String Bytes
  deleted_attributes : List String
deriving DecidableEq, Repr

/-- EVMPoolState::delta_transition (vm/state.rs lines 625-647): for
manual-updates pools the state update is gated on a non-empty update_marker
attribute whose first byte is non-zero; otherwise it always runs. -/
def EVMPoolState.delta_transition (s : EVMPoolState) (env : VMEnv)
    (delta : ProtocolStateDelta) (tokens : AMap Bytes Token) (balances : Balances) :
    EVMPoolState × Option TransitionError :=
  if s.manual_updates then
    match AMap.find? delta.updated_attributes "update_marker" with
    | some marker =>
      if marker ≠ [] ∧ marker.headD 0 ≠ 0 then
        let (s2, err) := s.update_pool_state env tokens balances
        (s2, err.map TransitionError.simulation)
      else (s, none)
    | none => (s, none)
  else
    let (s2, err) := s.update_pool_state env tokens balances
    (s2, err.map TransitionError.simulation)

/-- The gating condition of delta_transition, as one boolean: the state update
runs exactly when the pool is not manual-updates, or the delta carries a
non-empty update_marker whose first byte is non-zero. -/
def updateTriggered (s : EVMPoolState) (delta : ProtocolStateDelta) : Bool :=
  !s.manual_updates ||
    (match AMap.find? delta.updated_attributes "update_marker" with
     | some marker => decide (marker ≠ []) && decide (marker.headD 0 ≠ 0)
     | none => false)

/-- The block-lasting-overwrite merge loop of get_amount_out: for every account
of the swap state diff that carries storage, union the slots into the clone. -/
def applyStateChanges (s0 : EVMPoolState) (state_changes : AMap Address StateUpdate) :
    EVMPoolState :=
  state_changes.foldl
    (fun st p =>
      match p.2.storage with
      | some storage =>
        let cur := (AMap.find? st.block_lasting_overwrites p.1).getD AMap.empty
        let updated := AMap.insert st.block_lasting_overwrites p.1 (AMap.insertMany cur storage)
        { st with block_lasting_overwrites := updated }
      | none => st)
    s0

/-- The spot-price update of get_amount_out: a non-zero post-swap price is
stored forward, and its reciprocal backward. -/
def updateSpotPricesAfterSwap (s : EVMPoolState) (sell buy : Address)
    (new_price : F64) : EVMPoolState :=
  if new_price ≠ 0 then
    let forward := AMap.insert s.spot_prices (sell, buy) new_price
    let both := AMap.insert forward (buy, sell) (1 / new_price)
    { s with spot_prices := both }
  else s

/-- The Result computed by ProtocolSim::get_amount_out on EVMPoolState
(vm/state.rs lines 520-610): build the overlay, query the sell limit, clamp
when HardLimits is present and the requested amount exceeds it, simulate the
swap on the effective amount, apply the state diff and the post-swap prices to
a clone, and return the clone inside Ok or inside the clamp error. -/
def EVMPoolState.get_amount_out_result (s : EVMPoolState) (env : VMEnv)
    (amount_in : Nat) (token_in token_out : Token) :
    Except SimulationError GetAmountOutResult := do
  let sell_token_address ← bytes_to_address token_in.address
  let buy_token_address ← bytes_to_address token_out.address
  let sell_amount := amount_in
  let overwrites ← s.get_overwrites env [sell_token_address, buy_token_address]
    (MAX_BALANCE / 100)
  let (sell_amount_limit, _) ← s.get_amount_limits env
    [sell_token_address, buy_token_address] (some overwrites)
  let (sell_amount_respecting_limit, sell_amount_exceeds_limit) :=
    if s.capabilities.contains Capability.HardLimits ∧ sell_amount_limit < sell_amount then
      (sell_amount_limit, true)
    else (sell_amount, false)
  let overwrites_with_sell_limit ← s.get_overwrites env
    [sell_token_address, buy_token_address] sell_amount_limit
  let complete_overwrites := mergeOverwrites overwrites overwrites_with_sell_limit
  let (trade, state_changes) ← env.swap s.id sell_token_address buy_token_address false
    sell_amount_respecting_limit s.block.number (some complete_overwrites)
  let new_state := applyStateChanges s state_changes
  let new_state := updateSpotPricesAfterSwap new_state sell_token_address
    buy_token_address trade.price
  let buy_amount := trade.received_amount
  if sell_amount_exceeds_limit then
    .error (.InvalidInput ("Sell amount exceeds limit " ++ toString sell_amount_limit)
      (some (GetAmountOutResult.new buy_amount trade.gas_used new_state)))
  else
    .ok (GetAmountOutResult.new buy_amount trade.gas_used new_state)

/-- ProtocolSim::get_amount_out on EVMPoolState, in receiver-passing style: the
first component is the returned Result, the second the receiver after the
call.  The source takes the receiver by shared reference and mutates only the
local clone, so the translation threads the receiver through unchanged. -/
def EVMPoolState.get_amount_out (s : EVMPoolState) (env : VMEnv) (amount_in : Nat)
    (token_in token_out : Token) :
    Except SimulationError GetAmountOutResult × EVMPoolState :=
  (s.get_amount_out_result env amount_in token_in token_out, s)

/-- A ProtocolSim trait object, as far as the dynamic downcast in
EVMPoolState::eq can distinguish it: either an EVMPoolState over the pre-cached
database, or any other implementation (an analytical pool, or an EVMPoolState
over a different database type). -/
inductive ProtocolSimObj where
  | evmPoolPreCached (s : EVMPoolState)
  | otherImpl (tag : String)
deriving DecidableEq

/-- ProtocolSim::eq on EVMPoolState (vm/state.rs lines 661-670): downcast the
other object to an EVMPoolState over PreCachedDB and compare pool ids only;
any failed downcast compares unequal. -/
def EVMPoolState.protocolSimEq (s : EVMPoolState) (other : ProtocolSimObj) : Bool :=
  match other with
  | .evmPoolPreCached other_state => decide (s.id = other_state.id)
  | .otherImpl _ => false

/-- The common shape of the insertion folds of the embedding: walk a key-value
list and insert an image of each entry, skipping entries without one. -/
def foldIns {K V W : Type} [DecidableEq K] (g : K × V → Option W)
    (l : List (K × V)) (acc : AMap K W) : AMap K W :=
  l.foldl
    (fun acc p =>
      match g p with
      | some w => AMap.insert acc p.1 w
      | none => acc)
    acc

/-- A concrete inner database for the storage-override example of claim C5:
slots 0 and 1 of address 1 hold 100, everything else is empty. -/
def exInnerDB : DatabaseRef String :=
  { basic_ref := fun _ => .ok none
    code_by_hash_ref := fun _ => .error "Code by hash is not implemented in SimulationDB"
    storage_ref := fun a i => if a = 1 ∧ (i = 0 ∨ i = 1) then .ok 100 else .ok 0
    block_hash_ref := fun _ => .ok 0 }

/-- The overridden view of the example database: slot 0 of address 1 is
overridden to 101. -/
def exOverriddenDB : OverriddenSimulationDB String :=
  { inner_db := exInnerDB, overrides := [(1, [(0, 101)])] }

/-- A concrete deterministic adapter oracle used to evaluate the embedding at
explicit inputs: the sell limit is 5, the quoted price is 2, a swap returns
double the sell amount with gas 7, post-swap price 3 and one changed slot on
the contract at address 2. -/
def testEnv : VMEnv :=
  { get_limits := fun _ _ _ _ _ => .ok (5, 5)
    price := fun _ _ _ _ _ _ => .ok [2]
    swap := fun _ _ _ _ amount _ _ =>
      .ok ({ received_amount := amount * 2, gas_used := 7, price := 3 },
        [(2, { storage := some [(1, 9)], balance := none })])
    balance_slot := fun slots _ owner => slots.balances_slot * 1000 + owner % 1000
    allowance_slot := fun slots _ spender owner =>
      slots.allowances_slot * 1000000 + spender % 1000 * 1000 + owner % 1000 }

/-- A first test token with the 20-byte address of value 1. -/
def tokenA : Token :=
  { address := List.replicate 19 0 ++ [1], decimals := 18, symbol := "A", gas := 1 }

/-- A second test token with the 20-byte address of value 2. -/
def tokenB : Token :=
  { address := List.replicate 19 0 ++ [2], decimals := 18, symbol := "B", gas := 1 }

/-- A concrete pool state with hard limits used to evaluate the embedding at
explicit inputs. -/
def testPool : EVMPoolState :=
  { id := "pool1"
    tokens := [tokenA.address, tokenB.address]
    block := { number := 1, hash := 0, timestamp := 0 }
    balances := []
    balance_owner := some 77
    spot_prices := []
    capabilities := [Capability.SellSide, Capability.PriceFunction, Capability.HardLimits]
    block_lasting_overwrites := []
    involved_contracts := []
    contract_balances := []
    token_storage_slots := []
    manual_updates := false
    adapter_contract := { address := 55, engine_temp_storage := [] } }

/-- The first overlay computed by get_amount_out on the test pool. -/
def c1Ow : AMap Address (AMap U256 U256) :=
  ((testPool.get_overwrites testEnv [1, 2] (MAX_BALANCE / 100)).toOption).getD AMap.empty

/-- The sell-limit overlay computed by get_amount_out on the test pool. -/
def c1Ow2 : AMap Address (AMap U256 U256) :=
  ((testPool.get_overwrites testEnv [1, 2] 5).toOption).getD AMap.empty

/-- The swap outcome of the test oracle on the clamped amount. -/
def c1Swap : Trade × AMap Address StateUpdate :=
  ((testEnv.swap "pool1" 1 2 false 5 1 (some (mergeOverwrites c1Ow c1Ow2))).toOption).getD
    ({ received_amount := 0, gas_used := 0, price := 0 }, AMap.empty)

/-- A pool carrying a non-empty block-lasting overwrite set and no
manual-updates flag: the counterexample state for claim C7. -/
def p7Pool : EVMPoolState :=
  { id := "pool7"
    tokens := []
    block := { number := 1, hash := 0, timestamp := 0 }
    balances := []
    balance_owner := none
    spot_prices := []
    capabilities := [Capability.PriceFunction]
    block_lasting_overwrites := [(7, [(0, 1)])]
    involved_contracts := []
    contract_balances := []
    token_storage_slots := []
    manual_updates := false
    adapter_contract := { address := 9, engine_temp_storage := [] } }

/-- An empty delta: no updated attributes. -/
def emptyDelta : ProtocolStateDelta :=
  { component_id := "", updated_attributes := [], deleted_attributes := [] }

/-- An empty balance update. -/
def emptyBalances : Balances :=
  { component_balances := [], account_balances := [] }

/-- The manual-updates variant of the C7 counterexample pool. -/
def p7ManualPool : EVMPoolState := { p7Pool with manual_updates := true }

/-- A concrete simulation database with one known account for evaluating
update_state: account 1 has balance 10, permanent slot 5 holding 50 and a
temporary slot 6 holding 60. -/
def exSimDB : SimulationDB :=
  { account_storage :=
      { accounts :=
          [(1, { info := { balance := 10, nonce := 0, code_hash := 0, code := none }
                 permanent_storage := [(5, 50)]
                 temp_storage := [(6, 60)]
                 mocked := false })] }
    block := none }

/-- A concrete update set for evaluating update_state: account 1 gets balance
11 and slot 5 set to 55. -/
def exUpdates : AMap Address StateUpdate :=
  [(1, { storage := some [(5, 55)], balance := some 11 })]

/-- The UTF-8 bytes of the protocol name "balancer_v2". -/
def balancerName : Bytes := [98, 97, 108, 97, 110, 99, 101, 114, 95, 118, 50]

/-- A well-formed Uniswap V4 snapshot used to evaluate the decoder: liquidity
100, sqrt price 256, tick 300, zero protocol fees, lp fee 500, tick spacing 60
and one tick at index 60 with net liquidity 400. -/
def v4Snapshot : ComponentWithState :=
  { state :=
      { component_id := "State1"
        attributes :=
          [("liquidity", [100]),
           ("tick", [1, 44]),
           ("sqrt_price_x96", [1, 0]),
           ("protocol_fees/zero2one", [0]),
           ("protocol_fees/one2zero", [0]),
           ("ticks/60/net_liquidity", [1, 144])]
        balances := [] }
    component :=
      { id := "State1"
        protocol_system := [115]
        tokens := []
        contract_ids := []
        static_attributes := [("key_lp_fee", [1, 244]), ("tick_spacing", [60])] } }

/-- The C9 snapshot with the liquidity attribute removed. -/
def v4SnapshotNoLiquidity : ComponentWithState :=
  { v4Snapshot with state :=
      { v4Snapshot.state with attributes :=
          [("tick", [1, 44]),
           ("sqrt_price_x96", [1, 0]),
           ("protocol_fees/zero2one", [0]),
           ("protocol_fees/one2zero", [0]),
           ("ticks/60/net_liquidity", [1, 144])] } }

/-- A pool sharing the id of the test pool but differing in every other
mutable field. -/
def testPoolVariant : EVMPoolState :=
  { testPool with
    balances := [(1, 5)]
    spot_prices := [((1, 2), 9)]
    capabilities := [Capability.SellSide]
    block_lasting_overwrites := [(3, [(0, 4)])]
    manual_updates := true
    block := { number := 2, hash := 1, timestamp := 1 } }

/-- A concrete touched account for evaluating the state-diff extraction:
balance 77, one changed slot (0 went from 4 to 9) and one unchanged slot
(1 stayed at 3). -/
def c3Account : EvmAccount :=
  { balance := 77
    storage := [(0, { original_value := 4, present_value := 9 }),
                (1, { original_value := 3, present_value := 3 })] }

/-- A concrete revm execution state holding only the account above at
address 5. -/
def c3State : AMap Address EvmAccount := [(5, c3Account)]

/-- Decidable equality of Except values, for evaluating the embedding at
concrete inputs. -/
instance {E A : Type} [DecidableEq E] [DecidableEq A] : DecidableEq (Except E A) := fun a b =>
  match a, b with
  | .ok x, .ok y =>
    if h : x = y then isTrue (by rw [h]) else isFalse (by intro hc; cases hc; exact h rfl)
  | .error x, .error y =>
    if h : x = y then isTrue (by rw [h]) else isFalse (by intro hc; cases hc; exact h rfl)
  | .ok _, .error _ => isFalse (by intro hc; cases hc)
  | .error _, .ok _ => isFalse (by intro hc; cases hc)

-- THEOREMS

theorem AMap.find?_insert {K V : Type} [DecidableEq K] (m : AMap K V) (k k0 : K) (v : V) :
    AMap.find? (AMap.insert m k v) k0 = if k = k0 then some v else AMap.find? m k0 := by
  induction m with
  | nil => simp [AMap.insert, AMap.find?]
  | cons p t ih =>
    obtain ⟨a, b⟩ := p
    by_cases h : a = k
    · subst h
      simp only [AMap.insert, if_pos rfl]
      by_cases h2 : a = k0 <;> simp [AMap.find?, h2]
    · simp only [AMap.insert, if_neg h]
      by_cases h2 : a = k0
      · subst h2
        have hk : ¬ k = a := fun hh => h hh.symm
        simp [AMap.find?, hk]
      · simp [AMap.find?, h2, ih]

theorem AMap.insert_ne_nil {K V : Type} [DecidableEq K] (m : AMap K V) (k : K) (v : V) :
    AMap.insert m k v ≠ [] := by
  cases m with
  | nil => simp [AMap.insert]
  | cons p t =>
    simp only [AMap.insert]
    by_cases h : p.1 = k <;> simp [h]

theorem AMap.insert_fresh {K V : Type} [DecidableEq K] (m : AMap K V) (k : K) (v : V)
    (h : AMap.find? m k = none) : AMap.insert m k v = m ++ [(k, v)] := by
  induction m with
  | nil => simp [AMap.insert]
  | cons p t ih =>
    obtain ⟨a, b⟩ := p
    by_cases h2 : a = k
    · subst h2
      simp [AMap.find?] at h
    · simp only [AMap.find?, if_neg h2] at h
      simp [AMap.insert, h2, ih h]

theorem AMap.find?_map_value {K V W : Type} [DecidableEq K] (f : V → W) (m : AMap K V)
    (k : K) :
    AMap.find? (m.map (fun p => (p.1, f p.2))) k = (AMap.find? m k).map f := by
  induction m with
  | nil => simp [AMap.find?]
  | cons p t ih =>
    by_cases h : p.1 = k <;> simp [AMap.find?, h, ih]

theorem foldIns_find?_of_not_mem {K V W : Type} [DecidableEq K] (g : K × V → Option W)
    (l : List (K × V)) (acc : AMap K W) (k : K) (h : ∀ p ∈ l, p.1 ≠ k) :
    AMap.find? (foldIns g l acc) k = AMap.find? acc k := by
  induction l generalizing acc with
  | nil => rfl
  | cons p t ih =>
    have hp : p.1 ≠ k := h p (by simp)
    have ht : ∀ q ∈ t, q.1 ≠ k := fun q hq => h q (by simp [hq])
    cases hg : g p with
    | none => simpa [foldIns, hg] using ih _ ht
    | some w =>
      have := ih (AMap.insert acc p.1 w) ht
      simpa [foldIns, hg, AMap.find?_insert, hp] using this

theorem foldIns_find?_mem {K V W : Type} [DecidableEq K] (g : K × V → Option W)
    (l : List (K × V)) (acc : AMap K W) (k : K) (v : V)
    (hnd : (l.map Prod.fst).Nodup) (hm : (k, v) ∈ l) :
    AMap.find? (foldIns g l acc) k =
      match g (k, v) with
      | some w => some w
      | none => AMap.find? acc k := by
  induction l generalizing acc with
  | nil => cases hm
  | cons p t ih =>
    rcases List.mem_cons.mp hm with h | h
    · subst h
      have hrest : ∀ q ∈ t, q.1 ≠ k := by
        intro q hq he
        have hmem : q.1 ∈ t.map Prod.fst := List.mem_map_of_mem Prod.fst hq
        rw [he] at hmem
        exact (List.nodup_cons.mp hnd).1 hmem
      cases hg : g (k, v) with
      | some w =>
        have := foldIns_find?_of_not_mem g t (AMap.insert acc k w) k hrest
        simpa [foldIns, hg, AMap.find?_insert] using this
      | none =>
        have := foldIns_find?_of_not_mem g t acc k hrest
        simpa [foldIns, hg] using this
    · have hp : p.1 ≠ k := by
        intro he
        have hmem : p.1 ∈ t.map Prod.fst := by
          rw [he]
          exact List.mem_map_of_mem Prod.fst h
        exact (List.nodup_cons.mp hnd).1 hmem
      have hnd2 : (t.map Prod.fst).Nodup := (List.nodup_cons.mp hnd).2
      cases hg : g p with
      | none => simpa [foldIns, hg] using ih acc hnd2 h
      | some w =>
        have := ih (AMap.insert acc p.1 w) hnd2 h
        cases hgk : g (k, v) with
        | some w2 => simpa [foldIns, hg, hgk, AMap.find?_insert, hp] using this
        | none => simpa [foldIns, hg, hgk, AMap.find?_insert, hp] using this

theorem foldIns_find?_some {K V W : Type} [DecidableEq K] (g : K × V → Option W)
    (l : List (K × V)) (acc : AMap K W) (k : K) (w : W)
    (h : AMap.find? (foldIns g l acc) k = some w) :
    (∃ p ∈ l, p.1 = k ∧ g p = some w) ∨ AMap.find? acc k = some w := by
  induction l generalizing acc with
  | nil => exact Or.inr h
  | cons p t ih =>
    cases hg : g p with
    | none =>
      rcases ih acc (by simpa [foldIns, hg] using h) with h2 | h2
      · rcases h2 with ⟨q, hq, hk, hgv⟩
        exact Or.inl ⟨q, by simp [hq], hk, hgv⟩
      · exact Or.inr h2
    | some w2 =>
      rcases ih (AMap.insert acc p.1 w2) (by simpa [foldIns, hg] using h) with h2 | h2
      · rcases h2 with ⟨q, hq, hk, hgv⟩
        exact Or.inl ⟨q, by simp [hq], hk, hgv⟩
      · rw [AMap.find?_insert] at h2
        by_cases hk : p.1 = k
        · refine Or.inl ⟨p, by simp, hk, ?_⟩
          rw [hg]
          simpa [hk] using h2
        · exact Or.inr (by simpa [hk] using h2)

theorem foldIns_ne_nil {K V W : Type} [DecidableEq K] (g : K × V → Option W)
    (l : List (K × V)) (acc : AMap K W) (h : acc ≠ []) : foldIns g l acc ≠ [] := by
  induction l generalizing acc with
  | nil => exact h
  | cons p t ih =>
    cases hg : g p with
    | none => simpa [foldIns, hg] using ih acc h
    | some w =>
      simpa [foldIns, hg] using ih (AMap.insert acc p.1 w) (AMap.insert_ne_nil acc p.1 w)

theorem foldIns_nil_iff {K V W : Type} [DecidableEq K] (g : K × V → Option W)
    (l : List (K × V)) : foldIns g l [] = [] ↔ ∀ p ∈ l, g p = none := by
  constructor
  · induction l with
    | nil =>
      intro _ p hp
      cases hp
    | cons q t ih =>
      intro h p hp
      cases hgq : g q with
      | some w =>
        exfalso
        have h2 : foldIns g t (AMap.insert [] q.1 w) = [] := by
          simpa [foldIns, hgq] using h
        exact foldIns_ne_nil g t _ (AMap.insert_ne_nil [] q.1 w) h2
      | none =>
        rcases List.mem_cons.mp hp with he | he
        · subst he
          exact hgq
        · exact ih (by simpa [foldIns, hgq] using h) p he
  · intro h
    induction l with
    | nil => rfl
    | cons p t ih =>
      have hp : g p = none := h p (by simp)
      have ht : ∀ q ∈ t, g q = none := fun q hq => h q (by simp [hq])
      simpa [foldIns, hp] using ih ht

theorem foldl_congruent {α β : Type} (f g : β → α → β) (h : ∀ b a, f b a = g b a)
    (l : List α) (b : β) : l.foldl f b = l.foldl g b := by
  have : f = g := funext (fun x => funext (fun y => h x y))
  rw [this]

/-- C5: OverriddenSimulationDB::storage_ref returns the overridden value when
the overrides map carries one for the (address, slot) pair, without consulting
the inner database, and otherwise returns exactly what the inner database
returns; in particular, on the example database slot 0 of address 1 reads the
overridden 101 while slot 1 of the same address still reads the inner 100. -/
theorem overridden_db_storage_short_circuits {E : Type} (db : OverriddenSimulationDB E)
    (a : Address) (i : U256) :
    (∀ v, (AMap.find? db.overrides a).bind (fun m => AMap.find? m i) = some v →
      db.storage_ref a i = .ok v) ∧
    ((AMap.find? db.overrides a).bind (fun m => AMap.find? m i) = none →
      db.storage_ref a i = db.inner_db.storage_ref a i) ∧
    exOverriddenDB.storage_ref 1 0 = .ok 101 ∧
    exOverriddenDB.storage_ref 1 1 = .ok 100 := by
  refine ⟨?_, ?_, by decide, by decide⟩
  · intro v hv
    unfold OverriddenSimulationDB.storage_ref
    cases ho : AMap.find? db.overrides a with
    | none => simp [ho] at hv
    | some m =>
      cases hs : AMap.find? m i with
      | none => simp [ho, hs] at hv
      | some w =>
        have hv2 : some w = some v := by
          rw [ho] at hv
          simpa [hs] using hv
        cases hv2
        simp [hs]
  · intro hv
    unfold OverriddenSimulationDB.storage_ref
    cases ho : AMap.find? db.overrides a with
    | none => simp
    | some m =>
      cases hs : AMap.find? m i with
      | none => simp [hs]
      | some w => simp [ho, hs] at hv

/-- C5 witness: the override of slot 0 of address 1 is present and the wrapped
read observes it. -/
theorem c5_witness :
    (AMap.find? exOverriddenDB.overrides 1).bind (fun m => AMap.find? m 0) = some 101 ∧
    exOverriddenDB.storage_ref 1 0 = .ok 101 := by
  have h := overridden_db_storage_short_circuits (E := String) exOverriddenDB 1 0
  exact ⟨by decide, h.1 101 (by decide)⟩

/-- C8: delta_transition runs update_pool_state exactly when the pool is not
manual-updates, or the delta carries an update_marker attribute that is
non-empty with a non-zero first byte; in every other case the pool is left
untouched and no error is reported. -/
theorem delta_transition_gating (env : VMEnv) (s : EVMPoolState)
    (delta : ProtocolStateDelta) (tokens : AMap Bytes Token) (balances : Balances) :
    (s.delta_transition env delta tokens balances =
      if updateTriggered s delta then
        ((s.update_pool_state env tokens balances).1,
         (s.update_pool_state env tokens balances).2.map TransitionError.simulation)
      else (s, none)) ∧
    (updateTriggered s delta = true ↔
      (s.manual_updates = false ∨
        ∃ marker, AMap.find? delta.updated_attributes "update_marker" = some marker ∧
          marker ≠ [] ∧ marker.headD 0 ≠ 0)) := by
  constructor
  · cases hm : s.manual_updates with
    | true =>
      cases hf : AMap.find? delta.updated_attributes "update_marker" with
      | none => simp [EVMPoolState.delta_transition, updateTriggered, hm, hf]
      | some marker =>
        by_cases hne : marker = []
        · subst hne
          simp [EVMPoolState.delta_transition, updateTriggered, hm, hf]
        · by_cases hz : marker.headD 0 = 0
          · simp [EVMPoolState.delta_transition, updateTriggered, hm, hf, hne, hz]
          · simp [EVMPoolState.delta_transition, updateTriggered, hm, hf, hne, hz]
    | false => simp [EVMPoolState.delta_transition, updateTriggered, hm]
  · cases hm : s.manual_updates with
    | true =>
      cases hf : AMap.find? delta.updated_attributes "update_marker" with
      | none => simp [updateTriggered, hm, hf]
      | some marker =>
        simp only [updateTriggered, hm, hf, Bool.not_true, Bool.false_or,
          Bool.and_eq_true, decide_eq_true_eq]
        constructor
        · intro h
          exact Or.inr ⟨marker, rfl, h.1, h.2⟩
        · intro h
          rcases h with h | ⟨marker2, hm2, hne, hz⟩
          · cases h
          · cases hm2
            exact ⟨hne, hz⟩
    | false => simp [updateTriggered, hm]

/-- C8 witness: a manual-updates pool with no update_marker in the delta is
not triggered, while the non-manual test pool always is. -/
theorem c8_witness :
    p7ManualPool.delta_transition testEnv emptyDelta [] emptyBalances =
      (p7ManualPool, none) ∧
    updateTriggered testPool emptyDelta = true := by
  have h := delta_transition_gating testEnv p7ManualPool emptyDelta [] emptyBalances
  have h2 := delta_transition_gating testEnv testPool emptyDelta [] emptyBalances
  refine ⟨?_, h2.2.mpr (Or.inl (by decide))⟩
  rw [h.1]
  have ht : updateTriggered p7ManualPool emptyDelta = false := by decide
  rw [ht]
  simp

/-- C10: ProtocolSim equality on EVMPoolState compares pool ids only: it holds
exactly on EVMPoolState objects with the same id, is insensitive to every
other field (the concrete variant differs in balances, prices, capabilities,
overwrites, block and manual_updates), and is false on every non-EVMPoolState
implementation. -/
theorem evm_pool_eq_compares_id_only (s : EVMPoolState) (o : ProtocolSimObj) :
    (s.protocolSimEq o = true ↔
      ∃ t, o = ProtocolSimObj.evmPoolPreCached t ∧ s.id = t.id) ∧
    (∀ t, s.protocolSimEq (ProtocolSimObj.evmPoolPreCached t) = decide (s.id = t.id)) ∧
    (∀ tag, s.protocolSimEq (ProtocolSimObj.otherImpl tag) = false) ∧
    testPool.protocolSimEq (ProtocolSimObj.evmPoolPreCached testPoolVariant) = true := by
  refine ⟨?_, fun t => rfl, fun tag => rfl, by decide⟩
  cases o with
  | evmPoolPreCached t =>
    simp only [EVMPoolState.protocolSimEq, decide_eq_true_eq]
    constructor
    · intro h
      exact ⟨t, rfl, h⟩
    · rintro ⟨t2, ht, hid⟩
      cases ht
      exact hid
  | otherImpl tag =>
    simp only [EVMPoolState.protocolSimEq]
    constructor
    · intro h
      cases h
    · rintro ⟨t2, ht, _⟩
      cases ht

/-- C10 witness: the id-equal but otherwise different pools compare equal, and
a foreign implementation compares unequal. -/
theorem c10_witness :
    testPool.protocolSimEq (ProtocolSimObj.evmPoolPreCached testPoolVariant) = true ∧
    testPool.protocolSimEq (ProtocolSimObj.otherImpl "uniswap_v2") = false := by
  have h := evm_pool_eq_compares_id_only testPool (ProtocolSimObj.otherImpl "uniswap_v2")
  exact ⟨h.2.2.2, h.2.2.1 "uniswap_v2"⟩

/-- C2: get_amount_out does not mutate the receiver: every field (in
particular spot_prices and block_lasting_overwrites) is unchanged after the
call, and a second identical call on the receiver returned by the first call
yields the same output, so the post-swap storage diff and spot prices live
only on the state carried inside the returned result. -/
theorem get_amount_out_pure (env : VMEnv) (s : EVMPoolState) (amount_in : Nat)
    (token_in token_out : Token) :
    ((s.get_amount_out env amount_in token_in token_out).2 = s) ∧
    ((s.get_amount_out env amount_in token_in token_out).2.spot_prices = s.spot_prices) ∧
    ((s.get_amount_out env amount_in token_in token_out).2.block_lasting_overwrites
      = s.block_lasting_overwrites) ∧
    (((s.get_amount_out env amount_in token_in token_out).2).get_amount_out env amount_in
        token_in token_out
      = s.get_amount_out env amount_in token_in token_out) :=
  ⟨rfl, rfl, rfl, rfl⟩

theorem AMap.find?_eq_some_iff_mem {K V : Type} [DecidableEq K] (m : AMap K V) (k : K)
    (v : V) (hnd : (m.map Prod.fst).Nodup) :
    AMap.find? m k = some v ↔ (k, v) ∈ m := by
  induction m with
  | nil => simp [AMap.find?]
  | cons p t ih =>
    obtain ⟨a, b⟩ := p
    have hnd2 : (t.map Prod.fst).Nodup := (List.nodup_cons.mp hnd).2
    by_cases h : a = k
    · subst h
      constructor
      · intro hv
        have hv2 : some b = some v := by simpa [AMap.find?] using hv
        cases hv2
        exact List.mem_cons_self _ _
      · intro hv
        rcases List.mem_cons.mp hv with hv | hv
        · cases hv
          simp [AMap.find?]
        · exfalso
          have hmem : a ∈ t.map Prod.fst := by
            simpa using List.mem_map_of_mem Prod.fst hv
          exact (List.nodup_cons.mp hnd).1 hmem
    · constructor
      · intro hv
        have hv2 : AMap.find? t k = some v := by simpa [AMap.find?, h] using hv
        exact List.mem_cons_of_mem _ ((ih hnd2).mp hv2)
      · intro hv
        rcases List.mem_cons.mp hv with hv | hv
        · cases hv
          exact absurd rfl h
        · have hv2 := (ih hnd2).mpr hv
          simpa [AMap.find?, h] using hv2

theorem changedSlotUpdates_eq_foldIns (storage : AMap U256 EvmStorageSlot) :
    changedSlotUpdates storage =
      foldIns (fun p => if p.2.is_changed then some p.2.present_value else none)
        storage [] := by
  unfold changedSlotUpdates foldIns
  refine foldl_congruent _ _ ?_ storage AMap.empty
  intro b a
  by_cases h : a.2.is_changed <;> simp [h]

/-- C3 counterexample: an account whose revm storage has zero changed slots is
not elided from the emitted state diff — interpret_evm_success still emits an
entry for it, carrying the balance and no storage map. -/
theorem state_diff_account_not_elided :
    AMap.find?
      (interpret_evm_success 1 0 []
        [(5, { balance := 77,
               storage := [(0, { original_value := 4, present_value := 4 })] })]
        []).state_updates 5
      = some { balance := some 77, storage := none } := by decide

/-- C3 amended: for every execution state with distinct account addresses, the
diff emitted by interpret_evm_success carries one entry per touched account
(and no others), always emitting the new balance; an account with zero changed
slots keeps its entry but carries no storage map; a present storage map is
non-empty and holds exactly the changed slots with their present values, so
every present entry has a present value different from its original value. -/
theorem state_diff_canonical_form (gas_used gas_refunded : Nat) (output : Bytes)
    (state : AMap Address EvmAccount) (ts : AMap Address (AMap U256 U256))
    (hnd : (state.map Prod.fst).Nodup) :
    (∀ a acc, (a, acc) ∈ state →
      AMap.find?
        (interpret_evm_success gas_used gas_refunded output state ts).state_updates a
        = some (accountUpdateOf acc)) ∧
    (∀ acc : EvmAccount, (accountUpdateOf acc).balance = some acc.balance) ∧
    (∀ acc : EvmAccount, (∀ p ∈ acc.storage, p.2.is_changed = false) →
      (accountUpdateOf acc).storage = none) ∧
    (∀ (acc : EvmAccount) m, (accountUpdateOf acc).storage = some m →
      m ≠ [] ∧
      ∀ i v, AMap.find? m i = some v →
        ∃ sl, (i, sl) ∈ acc.storage ∧ sl.is_changed = true ∧ v = sl.present_value ∧
          sl.present_value ≠ sl.original_value) ∧
    (∀ (acc : EvmAccount) (i : U256) (sl : EvmStorageSlot),
      (acc.storage.map Prod.fst).Nodup → (i, sl) ∈ acc.storage → sl.is_changed = true →
      ∀ m, (accountUpdateOf acc).storage = some m →
        AMap.find? m i = some sl.present_value) ∧
    (∀ a u,
      AMap.find?
        (interpret_evm_success gas_used gas_refunded output state ts).state_updates a
        = some u →
      ∃ acc, (a, acc) ∈ state ∧ u = accountUpdateOf acc) := by
  have hout : (interpret_evm_success gas_used gas_refunded output state ts).state_updates
      = foldIns (fun p => some (accountUpdateOf p.2)) state [] := rfl
  refine ⟨?_, fun acc => rfl, ?_, ?_, ?_, ?_⟩
  · intro a acc hm
    rw [hout]
    exact foldIns_find?_mem _ state [] a acc hnd hm
  · intro acc hall
    unfold accountUpdateOf
    by_cases he : AMap.isEmpty acc.storage
    · simp [he]
    · have hz : changedSlotUpdates acc.storage = [] := by
        rw [changedSlotUpdates_eq_foldIns]
        rw [foldIns_nil_iff]
        intro p hp
        simp [hall p hp]
      simp [he, hz, AMap.isEmpty]
  · intro acc m hm
    unfold accountUpdateOf at hm
    by_cases he : AMap.isEmpty acc.storage
    · simp [he] at hm
    · by_cases hz : AMap.isEmpty (changedSlotUpdates acc.storage)
      · simp [he, hz] at hm
      · rw [if_neg he, if_neg hz] at hm
        cases hm
        constructor
        · intro hc
          rw [hc] at hz
          exact hz rfl
        · intro i v hv
          rw [changedSlotUpdates_eq_foldIns] at hv
          rcases foldIns_find?_some _ acc.storage [] i v hv with ⟨p, hp, hk, hg⟩ | hacc
          · by_cases hch : p.2.is_changed = true
            · rw [if_pos hch] at hg
              cases hg
              refine ⟨p.2, ?_, hch, rfl, ?_⟩
              · rw [← hk]
                exact hp
              · have h2 : p.2.original_value ≠ p.2.present_value := by
                  simpa [EvmStorageSlot.is_changed] using hch
                exact fun hc => h2 hc.symm
            · rw [if_neg hch] at hg
              cases hg
          · simp [AMap.find?] at hacc
  · intro acc i sl hnds hm hch m hsome
    unfold accountUpdateOf at hsome
    by_cases he : AMap.isEmpty acc.storage
    · simp [he] at hsome
    · by_cases hz : AMap.isEmpty (changedSlotUpdates acc.storage)
      · simp [he, hz] at hsome
      · rw [if_neg he, if_neg hz] at hsome
        cases hsome
        rw [changedSlotUpdates_eq_foldIns]
        have := foldIns_find?_mem
          (fun p => if p.2.is_changed then some p.2.present_value else none)
          acc.storage [] i sl hnds hm
        rw [this]
        simp [hch]
  · intro a u hu
    rw [hout] at hu
    rcases foldIns_find?_some _ state [] a u hu with ⟨p, hp, hk, hg⟩ | hacc
    · cases hg
      exact ⟨p.2, by rw [← hk]; exact hp, rfl⟩
    · simp [AMap.find?] at hacc

/-- C3 amended witness: on the concrete execution state the account entry is
present with the new balance and exactly the changed slot. -/
theorem c3_witness :
    (c3State.map Prod.fst).Nodup ∧
    AMap.find? (interpret_evm_success 2 1 [] c3State []).state_updates 5
      = some { balance := some 77, storage := some [(0, 9)] } := by
  refine ⟨by decide, ?_⟩
  have h := state_diff_canonical_form 2 1 [] c3State [] (by decide)
  have h2 := h.1 5 c3Account (by decide)
  rw [h2]
  decide

theorem beNat_foldl (t : Bytes) : ∀ acc : Nat,
    List.foldl (fun a y => a * 256 + y) acc t = acc * 256 ^ t.length + beNat t := by
  induction t with
  | nil =>
    intro acc
    simp [beNat]
  | cons y t ih =>
    intro acc
    have h0 : beNat (y :: t) = List.foldl (fun a z => a * 256 + z) y t := by
      simp [beNat]
    calc List.foldl (fun a z => a * 256 + z) acc (y :: t)
        = List.foldl (fun a z => a * 256 + z) (acc * 256 + y) t := rfl
      _ = (acc * 256 + y) * 256 ^ t.length + beNat t := ih (acc * 256 + y)
      _ = acc * 256 ^ (y :: t).length + (y * 256 ^ t.length + beNat t) := by
          simp only [List.length_cons, pow_succ]
          ring
      _ = acc * 256 ^ (y :: t).length + beNat (y :: t) := by
          rw [h0, ih y]

theorem beNat_cons (y : Nat) (t : Bytes) :
    beNat (y :: t) = y * 256 ^ t.length + beNat t := by
  have h0 : beNat (y :: t) = List.foldl (fun a z => a * 256 + z) y t := by
    simp [beNat]
  rw [h0, beNat_foldl t y]

theorem hexEncode_length (b : Bytes) : (hexEncode b).length = 2 * b.length := by
  induction b with
  | nil => rfl
  | cons x t ih =>
    show (hexDigit (x / 16 % 16) :: hexDigit (x % 16) :: hexEncode t).length = _
    simp only [List.length_cons, ih, List.length_cons]
    omega

theorem hexCharVal_hexDigit (d : Nat) (h : d < 16) :
    hexCharVal (hexDigit d) = some d := by
  revert h
  revert d
  decide

theorem hexVal_cons (c : Char) (t : List Char) :
    hexVal (c :: t) =
      match hexCharVal c, hexVal t with
      | some d, some n => some (d * 16 ^ t.length + n)
      | _, _ => none := rfl

theorem hexVal_hexEncode (b : Bytes) (h : ∀ x ∈ b, x < 256) :
    hexVal (hexEncode b) = some (beNat b) := by
  induction b with
  | nil => rfl
  | cons x t ih =>
    have hx : x < 256 := h x (List.mem_cons_self _ _)
    have ht : hexVal (hexEncode t) = some (beNat t) :=
      ih (fun y hy => h y (List.mem_cons_of_mem _ hy))
    have he : hexEncode (x :: t) = hexDigit (x / 16 % 16) :: hexDigit (x % 16) :: hexEncode t :=
      rfl
    have hd1 : hexCharVal (hexDigit (x / 16 % 16)) = some (x / 16 % 16) :=
      hexCharVal_hexDigit _ (Nat.mod_lt _ (by norm_num))
    have hd2 : hexCharVal (hexDigit (x % 16)) = some (x % 16) :=
      hexCharVal_hexDigit _ (Nat.mod_lt _ (by norm_num))
    rw [he, hexVal_cons, hd1, hexVal_cons, hd2, ht]
    have hlen : (hexEncode t).length = 2 * t.length := hexEncode_length t
    have hm : x / 16 % 16 = x / 16 := Nat.mod_eq_of_lt (Nat.div_lt_of_lt_mul (by omega))
    simp only [List.length_cons, hlen, beNat_cons, Option.some.injEq]
    rw [hm]
    have hsplit : 16 * (x / 16) + x % 16 = x := Nat.div_add_mod x 16
    have hpow : (16 : Nat) ^ (2 * t.length) = 256 ^ t.length := by
      rw [pow_mul]
      norm_num
    calc x / 16 * 16 ^ (2 * t.length + 1) + (x % 16 * 16 ^ (2 * t.length) + beNat t)
        = (16 * (x / 16) + x % 16) * 16 ^ (2 * t.length) + beNat t := by
          rw [pow_succ]
          ring
      _ = x * 256 ^ t.length + beNat t := by rw [hsplit, hpow]

theorem hexVal_replicate_zero (n : Nat) (s : List Char) :
    hexVal (List.replicate n '0' ++ s) = hexVal s := by
  induction n with
  | zero => simp
  | succ n ih =>
    have hr : List.replicate (n + 1) '0' ++ s = '0' :: (List.replicate n '0' ++ s) := by
      simp [List.replicate_succ]
    have h0 : hexCharVal '0' = some 0 := by decide
    rw [hr, hexVal_cons, h0, ih]
    cases hs : hexVal s with
    | none => rfl
    | some v => simp

theorem stripVmTag_subset (ps : Bytes) : ∀ x ∈ stripVmTag ps, x ∈ ps := by
  intro x hx
  unfold stripVmTag at hx
  by_cases h : ps.take 3 = [118, 109, 58]
  · rw [if_pos h] at hx
    exact List.mem_of_mem_drop hx
  · rw [if_neg h] at hx
    exact hx

/-- C6 counterexample: on the protocol name "balancer_v2" the source pads the
hex encoding with zeros on the LEFT (the Rust format specifier right-aligns),
so the decoded adapter address differs from the claimed right-padded reading
of the first 40 hex characters. -/
theorem adapter_address_not_right_padded :
    adapter_contract_address balancerName = .ok 0x62616c616e6365725f7632 ∧
    claimedAdapterAddressHex balancerName ≠
      padZeroLeft40 (hexEncode (stripVmTag balancerName)) ∧
    hexVal (claimedAdapterAddressHex balancerName) ≠ some 0x62616c616e6365725f7632 :=
  ⟨by decide, by decide, by decide⟩

/-- C6 amended: the adapter contract address computed when decoding a VM pool
snapshot is deterministic and equals the hex encoding of the protocol name
bytes (after stripping a leading vm: tag) zero-padded on the left to 40 hex
characters — numerically, the big-endian value of the stripped name bytes —
whenever the name is at most 20 bytes; longer names fail with ValueError. -/
theorem adapter_address_left_padded (protocol_system : Bytes)
    (hwf : ∀ x ∈ protocol_system, x < 256)
    (hlen : (stripVmTag protocol_system).length ≤ 20) :
    adapter_contract_address protocol_system
      = .ok (beNat (stripVmTag protocol_system)) := by
  have hwfb : ∀ x ∈ stripVmTag protocol_system, x < 256 :=
    fun x hx => hwf x (stripVmTag_subset protocol_system x hx)
  have hval : hexVal (hexEncode (stripVmTag protocol_system))
      = some (beNat (stripVmTag protocol_system)) := hexVal_hexEncode _ hwfb
  have hlen2 : (hexEncode (stripVmTag protocol_system)).length
      = 2 * (stripVmTag protocol_system).length := hexEncode_length _
  unfold adapter_contract_address addressFromHex padZeroLeft40
  by_cases h40 : 40 ≤ (hexEncode (stripVmTag protocol_system)).length
  · rw [if_pos h40]
    have h2 : (hexEncode (stripVmTag protocol_system)).length = 40 := by omega
    rw [if_pos h2, hval]
  · rw [if_neg h40]
    have h3 : (List.replicate (40 - (hexEncode (stripVmTag protocol_system)).length) '0'
        ++ hexEncode (stripVmTag protocol_system)).length = 40 := by
      simp only [List.length_append, List.length_replicate]
      omega
    rw [if_pos h3, hexVal_replicate_zero, hval]

/-- C6 amended witness: the balancer name is well-formed and decodes to the
left-padded value. -/
theorem c6_witness :
    (∀ x ∈ balancerName, x < 256) ∧ (stripVmTag balancerName).length ≤ 20 ∧
    adapter_contract_address balancerName = .ok (beNat (stripVmTag balancerName)) :=
  ⟨by decide, by decide, adapter_address_left_padded balancerName (by decide) (by decide)⟩

theorem except_bind_ok {E A B : Type} (a : A) (f : A → Except E B) :
    (Except.ok a >>= f) = f a := rfl

theorem except_bind_error {E A B : Type} (e : E) (f : A → Except E B) :
    ((Except.error e : Except E A) >>= f) = Except.error e := rfl

theorem insertTickSorted_mem (t : TickInfo) (l : List TickInfo) (b : TickInfo)
    (hb : b ∈ insertTickSorted t l) : b = t ∨ b ∈ l := by
  induction l with
  | nil => simpa [insertTickSorted] using hb
  | cons x r ih =>
    by_cases hlt : t.index < x.index
    · rw [insertTickSorted, if_pos hlt] at hb
      rcases List.mem_cons.mp hb with hb | hb
      · exact Or.inl hb
      · exact Or.inr hb
    · rw [insertTickSorted, if_neg hlt] at hb
      rcases List.mem_cons.mp hb with hb | hb
      · exact Or.inr (by simp [hb])
      · rcases ih hb with h | h
        · exact Or.inl h
        · exact Or.inr (List.mem_cons_of_mem _ h)

theorem insertTickSorted_pairwise (t : TickInfo) (l : List TickInfo)
    (h : List.Pairwise (fun a b => a.index ≤ b.index) l) :
    List.Pairwise (fun a b => a.index ≤ b.index) (insertTickSorted t l) := by
  induction l with
  | nil => simp [insertTickSorted]
  | cons x r ih =>
    have hx := (List.pairwise_cons.mp h).1
    have hr := (List.pairwise_cons.mp h).2
    by_cases hlt : t.index < x.index
    · rw [insertTickSorted, if_pos hlt]
      refine List.Pairwise.cons ?_ h
      intro b hb
      rcases List.mem_cons.mp hb with hb | hb
      · rw [hb]
        exact le_of_lt hlt
      · exact le_trans (le_of_lt hlt) (hx b hb)
    · rw [insertTickSorted, if_neg hlt]
      refine List.Pairwise.cons ?_ (ih hr)
      intro b hb
      rcases insertTickSorted_mem t r b hb with hb | hb
      · rw [hb]
        exact le_of_not_lt hlt
      · exact hx b hb

theorem sortTicks_sorted_aux (l : List TickInfo) : ∀ acc,
    List.Pairwise (fun a b => a.index ≤ b.index) acc →
    List.Pairwise (fun a b => a.index ≤ b.index)
      (l.foldl (fun acc t => insertTickSorted t acc) acc) := by
  induction l with
  | nil => exact fun acc h => h
  | cons t r ih =>
    intro acc h
    exact ih (insertTickSorted t acc) (insertTickSorted_pairwise t acc h)

theorem sortTicks_sorted (l : List TickInfo) :
    List.Pairwise (fun a b => a.index ≤ b.index) (sortTicks l) :=
  sortTicks_sorted_aux l [] (by simp)

/-- C9: the Uniswap V4 decoder fails with MissingAttribute identifying the
first missing required attribute, in source order — liquidity, sqrt_price_x96
(reported as sqrt_price), key_lp_fee, protocol_fees/zero2one,
protocol_fees/one2zero, tick_spacing, tick, and the ticks/<i32>/net_liquidity
entries (reported as tick_liquidities when none is present) — and a snapshot
carrying all required attributes with well-formed tick entries decodes into
the populated state whose tick list is sorted by index. -/
theorem usv4_decoder_spec (snapshot : ComponentWithState) :
    (AMap.find? snapshot.state.attributes "liquidity" = none →
      UniswapV4State.try_from_with_block snapshot
        = .error (.MissingAttribute "liquidity")) ∧
    (∀ liq, AMap.find? snapshot.state.attributes "liquidity" = some liq →
      AMap.find? snapshot.state.attributes "sqrt_price_x96" = none →
      UniswapV4State.try_from_with_block snapshot
        = .error (.MissingAttribute "sqrt_price")) ∧
    (∀ liq spb, AMap.find? snapshot.state.attributes "liquidity" = some liq →
      AMap.find? snapshot.state.attributes "sqrt_price_x96" = some spb →
      AMap.find? snapshot.component.static_attributes "key_lp_fee" = none →
      UniswapV4State.try_from_with_block snapshot
        = .error (.MissingAttribute "key_lp_fee")) ∧
    (∀ liq spb lpb, AMap.find? snapshot.state.attributes "liquidity" = some liq →
      AMap.find? snapshot.state.attributes "sqrt_price_x96" = some spb →
      AMap.find? snapshot.component.static_attributes "key_lp_fee" = some lpb →
      AMap.find? snapshot.state.attributes "protocol_fees/zero2one" = none →
      UniswapV4State.try_from_with_block snapshot
        = .error (.MissingAttribute "protocol_fees/zero2one")) ∧
    (∀ liq spb lpb z2ob, AMap.find? snapshot.state.attributes "liquidity" = some liq →
      AMap.find? snapshot.state.attributes "sqrt_price_x96" = some spb →
      AMap.find? snapshot.component.static_attributes "key_lp_fee" = some lpb →
      AMap.find? snapshot.state.attributes "protocol_fees/zero2one" = some z2ob →
      AMap.find? snapshot.state.attributes "protocol_fees/one2zero" = none →
      UniswapV4State.try_from_with_block snapshot
        = .error (.MissingAttribute "protocol_fees/one2zero")) ∧
    (∀ liq spb lpb z2ob o2zb,
      AMap.find? snapshot.state.attributes "liquidity" = some liq →
      AMap.find? snapshot.state.attributes "sqrt_price_x96" = some spb →
      AMap.find? snapshot.component.static_attributes "key_lp_fee" = some lpb →
      AMap.find? snapshot.state.attributes "protocol_fees/zero2one" = some z2ob →
      AMap.find? snapshot.state.attributes "protocol_fees/one2zero" = some o2zb →
      AMap.find? snapshot.component.static_attributes "tick_spacing" = none →
      UniswapV4State.try_from_with_block snapshot
        = .error (.MissingAttribute "tick_spacing")) ∧
    (∀ liq spb lpb z2ob o2zb tsb,
      AMap.find? snapshot.state.attributes "liquidity" = some liq →
      AMap.find? snapshot.state.attributes "sqrt_price_x96" = some spb →
      AMap.find? snapshot.component.static_attributes "key_lp_fee" = some lpb →
      AMap.find? snapshot.state.attributes "protocol_fees/zero2one" = some z2ob →
      AMap.find? snapshot.state.attributes "protocol_fees/one2zero" = some o2zb →
      AMap.find? snapshot.component.static_attributes "tick_spacing" = some tsb →
      AMap.find? snapshot.state.attributes "tick" = none →
      UniswapV4State.try_from_with_block snapshot
        = .error (.MissingAttribute "tick")) ∧
    (∀ liq spb lpb z2ob o2zb tsb tkb,
      AMap.find? snapshot.state.attributes "liquidity" = some liq →
      AMap.find? snapshot.state.attributes "sqrt_price_x96" = some spb →
      AMap.find? snapshot.component.static_attributes "key_lp_fee" = some lpb →
      AMap.find? snapshot.state.attributes "protocol_fees/zero2one" = some z2ob →
      AMap.find? snapshot.state.attributes "protocol_fees/one2zero" = some o2zb →
      AMap.find? snapshot.component.static_attributes "tick_spacing" = some tsb →
      AMap.find? snapshot.state.attributes "tick" = some tkb →
      collectTicks snapshot.state.attributes = .ok [] →
      UniswapV4State.try_from_with_block snapshot
        = .error (.MissingAttribute "tick_liquidities")) ∧
    (∀ liq spb lpb z2ob o2zb tsb tkb ts,
      AMap.find? snapshot.state.attributes "liquidity" = some liq →
      AMap.find? snapshot.state.attributes "sqrt_price_x96" = some spb →
      AMap.find? snapshot.component.static_attributes "key_lp_fee" = some lpb →
      AMap.find? snapshot.state.attributes "protocol_fees/zero2one" = some z2ob →
      AMap.find? snapshot.state.attributes "protocol_fees/one2zero" = some o2zb →
      AMap.find? snapshot.component.static_attributes "tick_spacing" = some tsb →
      AMap.find? snapshot.state.attributes "tick" = some tkb →
      collectTicks snapshot.state.attributes = .ok ts → ts ≠ [] →
      UniswapV4State.try_from_with_block snapshot
        = .ok (UniswapV4State.new (beNat liq) (beNat spb)
            (UniswapV4Fees.new (beNat z2ob) (beNat o2zb) (beNat lpb))
            (i24_be_bytes_to_i32 tkb) (beInt tsb)
            (sortTicks (ts.filter (fun t => decide (t.net_liquidity ≠ 0))))) ∧
      List.Pairwise (fun a b => a.index ≤ b.index)
        (sortTicks (ts.filter (fun t => decide (t.net_liquidity ≠ 0))))) := by
  refine ⟨?_, ?_, ?_, ?_, ?_, ?_, ?_, ?_, ?_⟩
  · intro h1
    simp [UniswapV4State.try_from_with_block, optionOk, h1, except_bind_error]
  · intro liq h1 h2
    simp [UniswapV4State.try_from_with_block, optionOk, h1, h2,
      except_bind_ok, except_bind_error]
  · intro liq spb h1 h2 h3
    simp [UniswapV4State.try_from_with_block, optionOk, h1, h2, h3,
      except_bind_ok, except_bind_error]
  · intro liq spb lpb h1 h2 h3 h4
    simp [UniswapV4State.try_from_with_block, optionOk, h1, h2, h3, h4,
      except_bind_ok, except_bind_error]
  · intro liq spb lpb z2ob h1 h2 h3 h4 h5
    simp [UniswapV4State.try_from_with_block, optionOk, h1, h2, h3, h4, h5,
      except_bind_ok, except_bind_error]
  · intro liq spb lpb z2ob o2zb h1 h2 h3 h4 h5 h6
    simp [UniswapV4State.try_from_with_block, optionOk, h1, h2, h3, h4, h5, h6,
      except_bind_ok, except_bind_error]
  · intro liq spb lpb z2ob o2zb tsb h1 h2 h3 h4 h5 h6 h7
    simp [UniswapV4State.try_from_with_block, optionOk, h1, h2, h3, h4, h5, h6, h7,
      except_bind_ok, except_bind_error]
  · intro liq spb lpb z2ob o2zb tsb tkb h1 h2 h3 h4 h5 h6 h7 h8
    simp [UniswapV4State.try_from_with_block, optionOk, h1, h2, h3, h4, h5, h6, h7, h8,
      except_bind_ok, except_bind_error]
  · intro liq spb lpb z2ob o2zb tsb tkb ts h1 h2 h3 h4 h5 h6 h7 h8 h9
    refine ⟨?_, sortTicks_sorted _⟩
    have hne : ts.isEmpty = false := by
      cases ts with
      | nil => exact absurd rfl h9
      | cons a t => rfl
    simp [UniswapV4State.try_from_with_block, optionOk, h1, h2, h3, h4, h5, h6, h7, h8,
      hne, except_bind_ok, except_bind_error]

/-- C9 witness: the well-formed concrete snapshot decodes into the populated
sorted state, and removing liquidity yields the missing-attribute error. -/
theorem c9_witness :
    UniswapV4State.try_from_with_block v4Snapshot
      = .ok (UniswapV4State.new 100 256 (UniswapV4Fees.new 0 0 500) 300 60
          [TickInfo.new 60 400]) ∧
    UniswapV4State.try_from_with_block v4SnapshotNoLiquidity
      = .error (.MissingAttribute "liquidity") := by
  have h := usv4_decoder_spec v4Snapshot
  have h2 := usv4_decoder_spec v4SnapshotNoLiquidity
  constructor
  · have hs := (h.2.2.2.2.2.2.2.2 [100] [1, 0] [1, 244] [0] [0] [60] [1, 44]
      [TickInfo.new 60 400] (by decide) (by decide) (by decide) (by decide) (by decide)
      (by decide) (by decide) (by decide) (by decide)).1
    rw [hs]
    decide
  · exact h2.1 (by decide)

theorem spotPriceStep_ok_shape (s : EVMPoolState) (env : VMEnv)
    (tokens : AMap Bytes Token) (a b : Bytes) (s2 : EVMPoolState)
    (h : s.spotPriceStep env tokens a b = .ok s2) :
    ∃ key price, s2 = s.insertSpotPrice key price := by
  unfold EVMPoolState.spotPriceStep at h
  simp only [Bind.bind, Except.bind, pure, Except.pure] at h
  repeat' split at h
  all_goals cases h
  all_goals exact ⟨_, _, rfl⟩

theorem setSpotPricesGo_preserves (env : VMEnv) (tokens : AMap Bytes Token)
    (pairs : List (Bytes × Bytes)) : ∀ s : EVMPoolState,
    (setSpotPricesGo env tokens pairs s).1.balances = s.balances ∧
    (setSpotPricesGo env tokens pairs s).1.block_lasting_overwrites
      = s.block_lasting_overwrites ∧
    (setSpotPricesGo env tokens pairs s).1.contract_balances = s.contract_balances := by
  induction pairs with
  | nil => exact fun s => ⟨rfl, rfl, rfl⟩
  | cons p rest ih =>
    intro s
    obtain ⟨a, b⟩ := p
    cases hstep : s.spotPriceStep env tokens a b with
    | error e => simp [setSpotPricesGo, hstep]
    | ok s2 =>
      obtain ⟨key, price, hs2⟩ := spotPriceStep_ok_shape s env tokens a b s2 hstep
      subst hs2
      simp only [setSpotPricesGo, hstep]
      have h3 := ih (s.insertSpotPrice key price)
      exact ⟨h3.1, h3.2.1, h3.2.2⟩

theorem set_spot_prices_preserves (s : EVMPoolState) (env : VMEnv)
    (tokens : AMap Bytes Token) :
    (s.set_spot_prices env tokens).1.balances = s.balances ∧
    (s.set_spot_prices env tokens).1.block_lasting_overwrites
      = s.block_lasting_overwrites ∧
    (s.set_spot_prices env tokens).1.contract_balances = s.contract_balances := by
  by_cases h : s.capabilities.contains Capability.PriceFunction
  · unfold EVMPoolState.set_spot_prices
    rw [if_pos h]
    exact setSpotPricesGo_preserves env tokens (perms2 s.tokens) s
  · unfold EVMPoolState.set_spot_prices
    rw [if_neg h]
    exact ⟨rfl, rfl, rfl⟩

theorem applyAccountBalances_none (balances : Balances) (cs : List Address)
    (cb : AMap Address (AMap Address U256))
    (h : ∀ c ∈ cs, AMap.find? balances.account_balances (addressToBytes c) = none) :
    applyAccountBalances balances cs cb = (cb, none) := by
  induction cs with
  | nil => rfl
  | cons c rest ih =>
    unfold applyAccountBalances
    rw [h c (List.mem_cons_self _ _)]
    exact ih (fun d hd => h d (List.mem_cons_of_mem _ hd))

/-- C7 counterexample: applying an empty delta (no updated attributes, no
balance changes) to a pool without manual_updates clears its non-empty
block_lasting_overwrites, so the field is not bit-identical after the call. -/
theorem empty_delta_clears_overwrites :
    p7Pool.block_lasting_overwrites ≠ [] ∧
    (p7Pool.delta_transition testEnv emptyDelta [] emptyBalances).2 = none ∧
    (p7Pool.delta_transition testEnv emptyDelta [] emptyBalances).1.block_lasting_overwrites
      = [] ∧
    (p7Pool.delta_transition testEnv emptyDelta [] emptyBalances).1.block_lasting_overwrites
      ≠ p7Pool.block_lasting_overwrites :=
  ⟨by decide, by decide, by decide, by decide⟩

theorem update_pool_state_empty_delta (env : VMEnv) (s : EVMPoolState)
    (tokens : AMap Bytes Token) (balances : Balances)
    (hcomp : AMap.find? balances.component_balances s.id = none)
    (hacct : ∀ c ∈ s.involved_contracts,
      AMap.find? balances.account_balances (addressToBytes c) = none) :
    (s.update_pool_state env tokens balances).1.balances = s.balances ∧
    (s.update_pool_state env tokens balances).1.block_lasting_overwrites = [] ∧
    (s.update_pool_state env tokens balances).1.contract_balances
      = s.contract_balances := by
  unfold EVMPoolState.update_pool_state
  by_cases hbe : AMap.isEmpty s.balances = true
  · simp only [hbe, if_true]
    rw [applyAccountBalances_none balances s.involved_contracts s.contract_balances hacct]
    exact set_spot_prices_preserves _ env tokens
  · simp only [hbe, if_false]
    rw [hcomp]
    exact set_spot_prices_preserves _ env tokens

/-- C7 amended: applying an empty delta — no updated attributes and no balance
entries for the pool — leaves a manual-updates pool entirely unchanged; on a
pool without manual_updates it runs update_pool_state, which keeps balances
and contract balances bit-identical but unconditionally clears
block_lasting_overwrites and recomputes the spot prices through the adapter,
so the pool is bit-identical only when its overwrites were already empty and
the recomputed prices coincide. -/
theorem empty_delta_transition (env : VMEnv) (s : EVMPoolState)
    (delta : ProtocolStateDelta) (tokens : AMap Bytes Token) (balances : Balances)
    (hattrs : delta.updated_attributes = [])
    (hcomp : AMap.find? balances.component_balances s.id = none)
    (hacct : ∀ c ∈ s.involved_contracts,
      AMap.find? balances.account_balances (addressToBytes c) = none) :
    (s.manual_updates = true →
      s.delta_transition env delta tokens balances = (s, none)) ∧
    (s.manual_updates = false →
      ((s.delta_transition env delta tokens balances).1.balances = s.balances ∧
       (s.delta_transition env delta tokens balances).1.block_lasting_overwrites = [] ∧
       (s.delta_transition env delta tokens balances).1.contract_balances
         = s.contract_balances)) := by
  constructor
  · intro hm
    unfold EVMPoolState.delta_transition
    simp [hm, hattrs, AMap.find?]
  · intro hm
    have hdt : s.delta_transition env delta tokens balances =
        ((s.update_pool_state env tokens balances).1,
         (s.update_pool_state env tokens balances).2.map TransitionError.simulation) := by
      unfold EVMPoolState.delta_transition
      simp [hm]
    rw [hdt]
    exact update_pool_state_empty_delta env s tokens balances hcomp hacct

/-- C7 amended witness: at the concrete pools, the manual-updates variant is
untouched by the empty delta and the plain variant keeps balances while its
overwrites are cleared. -/
theorem c7_witness :
    emptyDelta.updated_attributes = [] ∧
    AMap.find? emptyBalances.component_balances p7Pool.id = none ∧
    p7ManualPool.delta_transition testEnv emptyDelta [] emptyBalances
      = (p7ManualPool, none) ∧
    (p7Pool.delta_transition testEnv emptyDelta [] emptyBalances).1.balances
      = p7Pool.balances ∧
    (p7Pool.delta_transition testEnv emptyDelta [] emptyBalances).1.block_lasting_overwrites
      = [] := by
  have h1 := empty_delta_transition testEnv p7ManualPool emptyDelta [] emptyBalances
    rfl (by decide) (fun c hc => absurd hc (List.not_mem_nil c))
  have h2 := empty_delta_transition testEnv p7Pool emptyDelta [] emptyBalances
    rfl (by decide) (fun c hc => absurd hc (List.not_mem_nil c))
  exact ⟨rfl, by decide, h1.1 rfl, (h2.2 rfl).1, (h2.2 rfl).2.1⟩

/-- C1: when the overlay construction, the limit query and the adapter swap
all succeed, get_amount_out simulates the swap with the sell amount clamped to
the sell limit exactly when the pool has the HardLimits capability and the
requested amount strictly exceeds the limit, and in that case returns the
InvalidInput error carrying the received amount, the gas and the post-swap
cloned state; otherwise (amount within the limit, or HardLimits absent) it
returns Ok with the same received amount, gas and new state. -/
theorem get_amount_out_hard_limits (env : VMEnv) (s : EVMPoolState) (amount_in : Nat)
    (token_in token_out : Token) (sa ba : Address)
    (ow ow2 : AMap Address (AMap U256 U256)) (lim bl : U256)
    (trade : Trade) (changes : AMap Address StateUpdate)
    (h1 : bytes_to_address token_in.address = .ok sa)
    (h2 : bytes_to_address token_out.address = .ok ba)
    (h3 : s.get_overwrites env [sa, ba] (MAX_BALANCE / 100) = .ok ow)
    (h4 : s.get_amount_limits env [sa, ba] (some ow) = .ok (lim, bl))
    (h5 : s.get_overwrites env [sa, ba] lim = .ok ow2)
    (h6 : env.swap s.id sa ba false
      (if s.capabilities.contains Capability.HardLimits ∧ lim < amount_in then lim
       else amount_in) s.block.number (some (mergeOverwrites ow ow2))
      = .ok (trade, changes)) :
    s.get_amount_out env amount_in token_in token_out =
      (if s.capabilities.contains Capability.HardLimits ∧ lim < amount_in then
        .error (.InvalidInput ("Sell amount exceeds limit " ++ toString lim)
          (some (GetAmountOutResult.new trade.received_amount trade.gas_used
            (updateSpotPricesAfterSwap (applyStateChanges s changes) sa ba trade.price))))
      else
        .ok (GetAmountOutResult.new trade.received_amount trade.gas_used
          (updateSpotPricesAfterSwap (applyStateChanges s changes) sa ba trade.price)),
       s) := by
  by_cases hc : s.capabilities.contains Capability.HardLimits ∧ lim < amount_in
  · rw [if_pos hc] at h6 ⊢
    unfold EVMPoolState.get_amount_out EVMPoolState.get_amount_out_result
    rw [h1, except_bind_ok, h2, except_bind_ok, h3, except_bind_ok, h4, except_bind_ok]
    try dsimp only
    rw [if_pos hc]
    try dsimp only
    rw [h5, except_bind_ok]
    try dsimp only
    rw [h6, except_bind_ok]
    rfl
  · rw [if_neg hc] at h6 ⊢
    unfold EVMPoolState.get_amount_out EVMPoolState.get_amount_out_result
    rw [h1, except_bind_ok, h2, except_bind_ok, h3, except_bind_ok, h4, except_bind_ok]
    try dsimp only
    rw [if_neg hc]
    try dsimp only
    rw [h5, except_bind_ok]
    try dsimp only
    rw [h6, except_bind_ok]
    rfl

/-- C1 witness: on the concrete pool whose sell limit is 5, a requested amount
of 10 is clamped and the call returns the InvalidInput error carrying the
clamped swap result. -/
theorem c1_witness :
    bytes_to_address tokenA.address = .ok 1 ∧
    bytes_to_address tokenB.address = .ok 2 ∧
    testPool.get_overwrites testEnv [1, 2] (MAX_BALANCE / 100) = .ok c1Ow ∧
    testPool.get_amount_limits testEnv [1, 2] (some c1Ow) = .ok (5, 5) ∧
    testPool.get_overwrites testEnv [1, 2] 5 = .ok c1Ow2 ∧
    testEnv.swap testPool.id 1 2 false
      (if testPool.capabilities.contains Capability.HardLimits ∧ (5 : U256) < 10 then 5
       else 10) testPool.block.number (some (mergeOverwrites c1Ow c1Ow2))
      = .ok (c1Swap.1, c1Swap.2) ∧
    testPool.get_amount_out testEnv 10 tokenA tokenB =
      (.error (.InvalidInput ("Sell amount exceeds limit " ++ toString (5 : U256))
        (some (GetAmountOutResult.new c1Swap.1.received_amount c1Swap.1.gas_used
          (updateSpotPricesAfterSwap (applyStateChanges testPool c1Swap.2) 1 2
            c1Swap.1.price)))), testPool) := by
  have h := get_amount_out_hard_limits testEnv testPool 10 tokenA tokenB 1 2 c1Ow c1Ow2 5 5
    c1Swap.1 c1Swap.2 (by decide) (by decide) (by decide) (by decide) (by decide)
    (by decide)
  refine ⟨by decide, by decide, by decide, by decide, by decide, by decide, ?_⟩
  rw [h, if_pos (by decide)]

theorem map_congruent {α β : Type} (f g : α → β) (l : List α) (h : ∀ a ∈ l, f a = g a) :
    l.map f = l.map g := by
  induction l with
  | nil => rfl
  | cons x t ih =>
    simp only [List.map_cons]
    rw [h x (List.mem_cons_self _ _), ih (fun a ha => h a (List.mem_cons_of_mem _ ha))]

theorem keys_cons {K V : Type} (p : K × V) (t : List (K × V)) :
    (p :: t).map Prod.fst = p.1 :: t.map Prod.fst := rfl

theorem nodup_keys_head {K V : Type} (p : K × V) (t : List (K × V))
    (h : ((p :: t).map Prod.fst).Nodup) : p.1 ∉ t.map Prod.fst := by
  rw [keys_cons] at h
  exact (List.nodup_cons.mp h).1

theorem nodup_keys_tail {K V : Type} (p : K × V) (t : List (K × V))
    (h : ((p :: t).map Prod.fst).Nodup) : (t.map Prod.fst).Nodup := by
  rw [keys_cons] at h
  exact (List.nodup_cons.mp h).2

theorem AMap.mem_keys_insert {K V : Type} [DecidableEq K] (m : AMap K V) (k : K) (v : V)
    (x : K) (h : x ∈ (AMap.insert m k v).map Prod.fst) :
    x = k ∨ x ∈ m.map Prod.fst := by
  induction m with
  | nil =>
    left
    have h2 : x ∈ [k] := h
    simpa using h2
  | cons p t ih =>
    obtain ⟨a, b⟩ := p
    by_cases hpk : a = k
    · have he : AMap.insert ((a, b) :: t) k v = (k, v) :: t := by
        show (if a = k then (k, v) :: t else (a, b) :: AMap.insert t k v) = _
        rw [if_pos hpk]
      rw [he, keys_cons] at h
      rcases List.mem_cons.mp h with h2 | h2
      · exact Or.inl h2
      · right
        rw [keys_cons]
        exact List.mem_cons_of_mem _ h2
    · have he : AMap.insert ((a, b) :: t) k v = (a, b) :: AMap.insert t k v := by
        show (if a = k then (k, v) :: t else (a, b) :: AMap.insert t k v) = _
        rw [if_neg hpk]
      rw [he, keys_cons] at h
      rcases List.mem_cons.mp h with h2 | h2
      · right
        rw [keys_cons]
        exact List.mem_cons.mpr (Or.inl h2)
      · rcases ih h2 with h3 | h3
        · exact Or.inl h3
        · right
          rw [keys_cons]
          exact List.mem_cons_of_mem _ h3

theorem AMap.keys_insert_nodup {K V : Type} [DecidableEq K] (m : AMap K V) (k : K) (v : V)
    (h : (m.map Prod.fst).Nodup) : ((AMap.insert m k v).map Prod.fst).Nodup := by
  induction m with
  | nil => simp [AMap.insert]
  | cons p t ih =>
    obtain ⟨a, b⟩ := p
    have hhead : a ∉ t.map Prod.fst := nodup_keys_head (a, b) t h
    have htail : (t.map Prod.fst).Nodup := nodup_keys_tail (a, b) t h
    by_cases hpk : a = k
    · have he : AMap.insert ((a, b) :: t) k v = (k, v) :: t := by
        show (if a = k then (k, v) :: t else (a, b) :: AMap.insert t k v) = _
        rw [if_pos hpk]
      rw [he, keys_cons, List.nodup_cons]
      exact ⟨by rw [← hpk]; exact hhead, htail⟩
    · have he : AMap.insert ((a, b) :: t) k v = (a, b) :: AMap.insert t k v := by
        show (if a = k then (k, v) :: t else (a, b) :: AMap.insert t k v) = _
        rw [if_neg hpk]
      rw [he, keys_cons, List.nodup_cons]
      refine ⟨?_, ih htail⟩
      intro hc
      rcases AMap.mem_keys_insert t k v a hc with h2 | h2
      · exact hpk h2
      · exact hhead h2

theorem foldIns_keys_nodup {K V W : Type} [DecidableEq K] (g : K × V → Option W)
    (l : List (K × V)) : ∀ acc : AMap K W, ((acc.map Prod.fst).Nodup) →
    (((foldIns g l acc).map Prod.fst).Nodup) := by
  induction l with
  | nil => exact fun acc h => h
  | cons p t ih =>
    intro acc h
    cases hg : g p with
    | none =>
      have h2 : foldIns g (p :: t) acc = foldIns g t acc := by
        simp [foldIns, hg]
      rw [h2]
      exact ih acc h
    | some w =>
      have h2 : foldIns g (p :: t) acc = foldIns g t (AMap.insert acc p.1 w) := by
        simp [foldIns, hg]
      rw [h2]
      exact ih _ (AMap.keys_insert_nodup acc p.1 w h)

theorem AMap.insertMany_eq_foldIns {K V : Type} [DecidableEq K] (m src : AMap K V) :
    AMap.insertMany m src = foldIns (fun p => some p.2) src m := rfl

theorem AMap.find?_insertMany_src {K V : Type} [DecidableEq K] (m src : AMap K V)
    (k : K) (v : V) (hnd : (src.map Prod.fst).Nodup) (h : AMap.find? src k = some v) :
    AMap.find? (AMap.insertMany m src) k = some v := by
  have hm : (k, v) ∈ src := (AMap.find?_eq_some_iff_mem src k v hnd).mp h
  rw [AMap.insertMany_eq_foldIns]
  have h2 := foldIns_find?_mem (fun p => some p.2) src m k v hnd hm
  simpa using h2

theorem update_account_exists_clear (σ : AccountStorage) (b : Address) (u : StateUpdate) :
    ∃ σ2 : AccountStorage, σ.update_account b u = σ2.clear_temp_storage := by
  unfold AccountStorage.update_account
  exact ⟨_, rfl⟩

theorem find?_clear_list (l : AMap Address AccountRecord) (a : Address) :
    AMap.find? (l.map (fun p => (p.1, { p.2 with temp_storage := AMap.empty }))) a
      = (AMap.find? l a).map (fun r => { r with temp_storage := [] }) := by
  induction l with
  | nil => rfl
  | cons p t ih =>
    by_cases h : p.1 = a
    · simp [AMap.find?, h, AMap.empty]
    · simp [AMap.find?, h, AMap.empty] at ih ⊢
      exact ih

theorem clear_temp_find? (σ : AccountStorage) (a : Address) :
    AMap.find? σ.clear_temp_storage.accounts a
      = (AMap.find? σ.accounts a).map (fun r => { r with temp_storage := [] }) := by
  unfold AccountStorage.clear_temp_storage
  exact find?_clear_list σ.accounts a

theorem update_account_temp (σ : AccountStorage) (b : Address) (u : StateUpdate)
    (a : Address) (r : AccountRecord)
    (hf : AMap.find? (σ.update_account b u).accounts a = some r) :
    r.temp_storage = [] := by
  obtain ⟨σ2, hσ2⟩ := update_account_exists_clear σ b u
  rw [hσ2, clear_temp_find?] at hf
  cases h : AMap.find? σ2.accounts a with
  | none =>
    rw [h] at hf
    cases hf
  | some r0 =>
    rw [h] at hf
    cases hf
    rfl

theorem update_account_find?_ne (σ : AccountStorage) (b : Address) (u : StateUpdate)
    (a : Address) (hne : b ≠ a) :
    AMap.find? (σ.update_account b u).accounts a
      = (AMap.find? σ.accounts a).map (fun r => { r with temp_storage := [] }) := by
  unfold AccountStorage.update_account
  cases hf : AMap.find? σ.accounts b with
  | none =>
    dsimp only
    rw [clear_temp_find?]
  | some record =>
    dsimp only
    rw [clear_temp_find?]
    have hfind : ∀ r2 : AccountRecord,
        AMap.find? (AMap.insert σ.accounts b r2) a = AMap.find? σ.accounts a := by
      intro r2
      rw [AMap.find?_insert]
      simp [hne]
    rw [hfind]

theorem update_account_find?_self (σ : AccountStorage) (a : Address) (u : StateUpdate)
    (r : AccountRecord) (hf : AMap.find? σ.accounts a = some r) :
    AMap.find? (σ.update_account a u).accounts a
      = some { info := { r.info with balance := u.balance.getD r.info.balance }
               permanent_storage :=
                 AMap.insertMany r.permanent_storage (u.storage.getD AMap.empty)
               temp_storage := []
               mocked := r.mocked } := by
  unfold AccountStorage.update_account
  rw [hf]
  dsimp only
  rw [clear_temp_find?]
  dsimp only
  rw [AMap.find?_insert]
  rw [if_pos rfl]
  cases hb : u.balance <;> cases hs : u.storage <;>
    simp [hb, hs, AMap.insertMany, AMap.empty]

theorem updateState_fold_block (l : AMap Address StateUpdate) :
    ∀ acc : AMap Address StateUpdate × SimulationDB,
    (l.foldl updateStateStep acc).2.block = acc.2.block := by
  induction l with
  | nil => exact fun acc => rfl
  | cons p t ih =>
    intro acc
    rw [List.foldl_cons, ih]
    rfl

theorem revertEntryFor_update_ne (σ : AccountStorage) (b : Address) (u : StateUpdate)
    (a : Address) (u2 : StateUpdate) (hne : b ≠ a) :
    revertEntryFor (σ.update_account b u) a u2 = revertEntryFor σ a u2 := by
  have hinfo : (σ.update_account b u).get_account_info a = σ.get_account_info a := by
    unfold AccountStorage.get_account_info
    rw [update_account_find?_ne σ b u a hne]
    cases AMap.find? σ.accounts a <;> rfl
  have hperm : ∀ i, (σ.update_account b u).get_permanent_storage a i
      = σ.get_permanent_storage a i := by
    intro i
    unfold AccountStorage.get_permanent_storage
    rw [update_account_find?_ne σ b u a hne]
    cases AMap.find? σ.accounts a <;> rfl
  unfold revertEntryFor
  rw [hinfo]
  cases hstor : u2.storage with
  | none => rfl
  | some stor =>
    have hfold : stor.foldl (fun rs q =>
        match (σ.update_account b u).get_permanent_storage a q.1 with
        | some s => AMap.insert rs q.1 s
        | none => rs) AMap.empty
      = stor.foldl (fun rs q =>
        match σ.get_permanent_storage a q.1 with
        | some s => AMap.insert rs q.1 s
        | none => rs) AMap.empty := by
      apply foldl_congruent
      intro rs q
      rw [hperm q.1]
    simp only [Option.map_some']
    rw [hfold]

theorem updateState_fold_rev (l : AMap Address StateUpdate) :
    ∀ acc : AMap Address StateUpdate × SimulationDB,
    (l.map Prod.fst).Nodup →
    (∀ p ∈ l, AMap.find? acc.1 p.1 = none) →
    (l.foldl updateStateStep acc).1
      = acc.1 ++ l.map (fun p => (p.1, revertEntryFor acc.2.account_storage p.1 p.2)) := by
  induction l with
  | nil =>
    intro acc _ _
    simp
  | cons p t ih =>
    intro acc hnd hfresh
    have hnd2 : (t.map Prod.fst).Nodup := nodup_keys_tail p t hnd
    have hhead : p.1 ∉ t.map Prod.fst := nodup_keys_head p t hnd
    have hne : ∀ q ∈ t, q.1 ≠ p.1 := by
      intro q hq hc
      exact hhead (by rw [← hc]; exact List.mem_map_of_mem Prod.fst hq)
    have hfresh2 : ∀ q ∈ t, AMap.find? (updateStateStep acc p).1 q.1 = none := by
      intro q hq
      show AMap.find? (AMap.insert acc.1 p.1 _) q.1 = none
      rw [AMap.find?_insert]
      rw [if_neg (fun h => hne q hq h.symm)]
      exact hfresh q (List.mem_cons_of_mem _ hq)
    rw [List.foldl_cons, ih (updateStateStep acc p) hnd2 hfresh2]
    have hins : (updateStateStep acc p).1
        = acc.1 ++ [(p.1, revertEntryFor acc.2.account_storage p.1 p.2)] :=
      AMap.insert_fresh _ _ _ (hfresh p (List.mem_cons_self _ _))
    rw [hins]
    have hmap : t.map (fun q =>
          (q.1, revertEntryFor (updateStateStep acc p).2.account_storage q.1 q.2))
        = t.map (fun q => (q.1, revertEntryFor acc.2.account_storage q.1 q.2)) := by
      apply map_congruent
      intro q hq
      have h2 := revertEntryFor_update_ne acc.2.account_storage p.1 p.2 q.1 q.2
        (fun h => hne q hq h.symm)
      show (q.1, revertEntryFor (acc.2.account_storage.update_account p.1 p.2) q.1 q.2) = _
      rw [h2]
    rw [hmap]
    simp

theorem updateState_fold_untouched (a : Address) (l : AMap Address StateUpdate) :
    ∀ acc : AMap Address StateUpdate × SimulationDB,
    (∀ p ∈ l, p.1 ≠ a) →
    (AMap.find? (l.foldl updateStateStep acc).2.account_storage.accounts a
      = AMap.find? acc.2.account_storage.accounts a ∨
     AMap.find? (l.foldl updateStateStep acc).2.account_storage.accounts a
      = (AMap.find? acc.2.account_storage.accounts a).map
          (fun r => { r with temp_storage := [] })) := by
  induction l with
  | nil => exact fun acc _ => Or.inl rfl
  | cons p t ih =>
    intro acc hne
    rw [List.foldl_cons]
    have hstep : AMap.find? (updateStateStep acc p).2.account_storage.accounts a
        = (AMap.find? acc.2.account_storage.accounts a).map
            (fun r => { r with temp_storage := [] }) :=
      update_account_find?_ne _ p.1 p.2 a (hne p (List.mem_cons_self _ _))
    rcases ih (updateStateStep acc p) (fun q hq => hne q (List.mem_cons_of_mem _ hq))
      with h | h
    · right
      rw [h, hstep]
    · right
      rw [h, hstep]
      cases AMap.find? acc.2.account_storage.accounts a <;> rfl

theorem updateState_fold_applied (l : AMap Address StateUpdate) :
    ∀ acc : AMap Address StateUpdate × SimulationDB,
    (l.map Prod.fst).Nodup →
    ∀ a u r, (a, u) ∈ l →
    AMap.find? acc.2.account_storage.accounts a = some r →
    AMap.find? (l.foldl updateStateStep acc).2.account_storage.accounts a
      = some { info := { r.info with balance := u.balance.getD r.info.balance }
               permanent_storage :=
                 AMap.insertMany r.permanent_storage (u.storage.getD AMap.empty)
               temp_storage := []
               mocked := r.mocked } := by
  induction l with
  | nil =>
    intro acc _ a u r hm
    cases hm
  | cons p t ih =>
    intro acc hnd a u r hm hf
    have hnd2 : (t.map Prod.fst).Nodup := nodup_keys_tail p t hnd
    have hhead : p.1 ∉ t.map Prod.fst := nodup_keys_head p t hnd
    rw [List.foldl_cons]
    rcases List.mem_cons.mp hm with he | he
    · have hpa : p.1 = a := by
        rw [← he]
      have hne : ∀ q ∈ t, q.1 ≠ a := by
        intro q hq hc
        apply hhead
        have h4 : q.1 ∈ t.map Prod.fst := List.mem_map_of_mem Prod.fst hq
        rw [hc] at h4
        rw [hpa]
        exact h4
      have hstep : AMap.find? (updateStateStep acc p).2.account_storage.accounts a
          = some { info := { r.info with balance := u.balance.getD r.info.balance }
                   permanent_storage :=
                     AMap.insertMany r.permanent_storage (u.storage.getD AMap.empty)
                   temp_storage := []
                   mocked := r.mocked } := by
        show AMap.find? (acc.2.account_storage.update_account p.1 p.2).accounts a = _
        rw [← he]
        exact update_account_find?_self acc.2.account_storage a u r hf
      rcases updateState_fold_untouched a t (updateStateStep acc p) hne with h | h
      · rw [h, hstep]
      · rw [h, hstep]
        rfl
    · have hne : p.1 ≠ a := by
        intro hc
        apply hhead
        have h4 : a ∈ t.map Prod.fst := List.mem_map_of_mem Prod.fst he
        rw [hc]
        exact h4
      have hf2 : AMap.find? (updateStateStep acc p).2.account_storage.accounts a
          = some { r with temp_storage := [] } := by
        show AMap.find? (acc.2.account_storage.update_account p.1 p.2).accounts a = _
        rw [update_account_find?_ne _ p.1 p.2 a hne, hf]
        rfl
      exact ih (updateStateStep acc p) hnd2 a u { r with temp_storage := [] } he hf2

theorem updateState_fold_temp_cleared (l : AMap Address StateUpdate) :
    ∀ acc : AMap Address StateUpdate × SimulationDB, l ≠ [] → ∀ a r,
    AMap.find? (l.foldl updateStateStep acc).2.account_storage.accounts a = some r →
    r.temp_storage = [] := by
  induction l with
  | nil =>
    intro acc h
    exact absurd rfl h
  | cons p t ih =>
    intro acc _ a r hf
    by_cases ht : t = []
    · subst ht
      rw [List.foldl_cons, List.foldl_nil] at hf
      exact update_account_temp acc.2.account_storage p.1 p.2 a r hf
    · rw [List.foldl_cons] at hf
      exact ih (updateStateStep acc p) ht a r hf

/-- C4: update_state sets the bound block to the new header, returns the
reverse-update set that records the previous balance of every referenced
account and the previous permanent value of every referenced storage slot,
applies the updates into the permanent storage of the referenced accounts,
clears the temporary storage tier, and the returned reverse set, fed back
through update_state, undoes the applied updates (restores the previous
balances and the previous values of the referenced slots). -/
theorem update_state_spec (db : SimulationDB) (updates : AMap Address StateUpdate)
    (block : BlockHeader) (hnd : (updates.map Prod.fst).Nodup) :
    ((db.update_state updates block).2.block = some block) ∧
    ((db.update_state updates block).1
      = updates.map (fun p => (p.1, revertEntryFor db.account_storage p.1 p.2))) ∧
    (∀ a u, (a, u) ∈ updates →
      AMap.find? (db.update_state updates block).1 a
        = some (revertEntryFor db.account_storage a u)) ∧
    (∀ a u, (a, u) ∈ updates →
      (revertEntryFor db.account_storage a u).balance
        = (db.account_storage.get_account_info a).map (fun i => i.balance)) ∧
    (∀ a u stor, (a, u) ∈ updates → u.storage = some stor →
      (stor.map Prod.fst).Nodup → ∀ i v, (i, v) ∈ stor →
      ∃ m, (revertEntryFor db.account_storage a u).storage = some m ∧
        AMap.find? m i = db.account_storage.get_permanent_storage a i) ∧
    (∀ a u r, (a, u) ∈ updates →
      AMap.find? db.account_storage.accounts a = some r →
      AMap.find? (db.update_state updates block).2.account_storage.accounts a
        = some { info := { r.info with balance := u.balance.getD r.info.balance }
                 permanent_storage :=
                   AMap.insertMany r.permanent_storage (u.storage.getD AMap.empty)
                 temp_storage := []
                 mocked := r.mocked }) ∧
    (updates ≠ [] → ∀ a r,
      AMap.find? (db.update_state updates block).2.account_storage.accounts a = some r →
      r.temp_storage = []) ∧
    (∀ a u r, (a, u) ∈ updates →
      AMap.find? db.account_storage.accounts a = some r →
      ∀ block2 : BlockHeader,
      ∃ r3, AMap.find?
          ((db.update_state updates block).2.update_state
            (db.update_state updates block).1 block2).2.account_storage.accounts a
        = some r3 ∧
        r3.info.balance = r.info.balance ∧
        (∀ stor, u.storage = some stor → (stor.map Prod.fst).Nodup →
          ∀ i v, (i, v) ∈ stor → (AMap.find? r.permanent_storage i).isSome →
            AMap.find? r3.permanent_storage i = AMap.find? r.permanent_storage i)) := by
  have hrev : (db.update_state updates block).1
      = updates.map (fun p => (p.1, revertEntryFor db.account_storage p.1 p.2)) := by
    have h := updateState_fold_rev updates
      (AMap.empty, { db with block := some block }) hnd (fun p _ => rfl)
    simpa using h
  have hkeys : ((db.update_state updates block).1.map Prod.fst).Nodup := by
    rw [hrev, List.map_map]
    exact hnd
  have hslot : ∀ a u stor, (a, u) ∈ updates → u.storage = some stor →
      (stor.map Prod.fst).Nodup → ∀ i v, (i, v) ∈ stor →
      ∃ m, (revertEntryFor db.account_storage a u).storage = some m ∧
        AMap.find? m i = db.account_storage.get_permanent_storage a i := by
    intro a u stor hm hstor hnds i v hmem
    have hbr : stor.foldl (fun rs q =>
        match db.account_storage.get_permanent_storage a q.1 with
        | some s => AMap.insert rs q.1 s
        | none => rs) AMap.empty
      = foldIns (fun q => db.account_storage.get_permanent_storage a q.1) stor [] := by
      unfold foldIns
      apply foldl_congruent
      intro rs q
      cases hq : db.account_storage.get_permanent_storage a q.1 <;> simp [hq]
    refine ⟨stor.foldl (fun rs q =>
        match db.account_storage.get_permanent_storage a q.1 with
        | some s => AMap.insert rs q.1 s
        | none => rs) AMap.empty, ?_, ?_⟩
    · unfold revertEntryFor
      rw [hstor]
      rfl
    · rw [hbr]
      have h2 := foldIns_find?_mem
        (fun q => db.account_storage.get_permanent_storage a q.1) stor [] i v hnds hmem
      cases hg : db.account_storage.get_permanent_storage a i with
      | some s => simpa [hg] using h2
      | none => simpa [hg, AMap.find?] using h2
  have happlied : ∀ a u r, (a, u) ∈ updates →
      AMap.find? db.account_storage.accounts a = some r →
      AMap.find? (db.update_state updates block).2.account_storage.accounts a
        = some { info := { r.info with balance := u.balance.getD r.info.balance }
                 permanent_storage :=
                   AMap.insertMany r.permanent_storage (u.storage.getD AMap.empty)
                 temp_storage := []
                 mocked := r.mocked } := by
    intro a u r hm hf
    exact updateState_fold_applied updates
      (AMap.empty, { db with block := some block }) hnd a u r hm hf
  refine ⟨updateState_fold_block updates _, hrev, ?_, fun a u _ => rfl, hslot, happlied,
    ?_, ?_⟩
  · intro a u hm
    rw [hrev]
    refine (AMap.find?_eq_some_iff_mem _ a _ ?_).mpr ?_
    · rw [List.map_map]
      exact hnd
    · exact List.mem_map_of_mem _ hm
  · intro hne a r hf
    refine updateState_fold_temp_cleared updates
      (AMap.empty, { db with block := some block }) ?_ a r hf
    intro hc
    rw [hc] at hne
    exact hne rfl
  · intro a u r hm hf block2
    have hr2 := happlied a u r hm hf
    have hmemrev : (a, revertEntryFor db.account_storage a u)
        ∈ (db.update_state updates block).1 := by
      rw [hrev]
      exact List.mem_map_of_mem _ hm
    have happ2 := updateState_fold_applied (db.update_state updates block).1
      (AMap.empty, { (db.update_state updates block).2 with block := some block2 })
      hkeys a (revertEntryFor db.account_storage a u)
      { info := { r.info with balance := u.balance.getD r.info.balance }
        permanent_storage :=
          AMap.insertMany r.permanent_storage (u.storage.getD AMap.empty)
        temp_storage := []
        mocked := r.mocked } hmemrev hr2
    have hbal : (revertEntryFor db.account_storage a u).balance = some r.info.balance := by
      unfold revertEntryFor AccountStorage.get_account_info
      rw [hf]
      rfl
    refine ⟨_, happ2, ?_, ?_⟩
    · show ((revertEntryFor db.account_storage a u).balance.getD _) = r.info.balance
      rw [hbal]
      rfl
    · intro stor hstor hnds i v hmem hsome
      obtain ⟨orig, horig⟩ := Option.isSome_iff_exists.mp hsome
      have hgp : db.account_storage.get_permanent_storage a i = some orig := by
        unfold AccountStorage.get_permanent_storage
        rw [hf]
        exact horig
      have hstorE : (revertEntryFor db.account_storage a u).storage
          = some (stor.foldl (fun rs q =>
              match db.account_storage.get_permanent_storage a q.1 with
              | some s => AMap.insert rs q.1 s
              | none => rs) AMap.empty) := by
        unfold revertEntryFor
        rw [hstor]
        rfl
      have hbr2 : stor.foldl (fun rs q =>
          match db.account_storage.get_permanent_storage a q.1 with
          | some s => AMap.insert rs q.1 s
          | none => rs) AMap.empty
        = foldIns (fun q => db.account_storage.get_permanent_storage a q.1) stor [] := by
        unfold foldIns
        apply foldl_congruent
        intro rs q
        cases hq : db.account_storage.get_permanent_storage a q.1 <;> simp [hq]
      have hmfind : AMap.find? (stor.foldl (fun rs q =>
          match db.account_storage.get_permanent_storage a q.1 with
          | some s => AMap.insert rs q.1 s
          | none => rs) AMap.empty) i = some orig := by
        rw [hbr2]
        have h2 := foldIns_find?_mem
          (fun q => db.account_storage.get_permanent_storage a q.1) stor [] i v hnds hmem
        simpa [hgp] using h2
      have hmnd : ((stor.foldl (fun rs q =>
          match db.account_storage.get_permanent_storage a q.1 with
          | some s => AMap.insert rs q.1 s
          | none => rs) AMap.empty).map Prod.fst).Nodup := by
        rw [hbr2]
        exact foldIns_keys_nodup _ stor [] (by simp)
      have hfin := AMap.find?_insertMany_src
        (AMap.insertMany r.permanent_storage (u.storage.getD AMap.empty))
        (stor.foldl (fun rs q =>
          match db.account_storage.get_permanent_storage a q.1 with
          | some s => AMap.insert rs q.1 s
          | none => rs) AMap.empty) i orig hmnd hmfind
      rw [horig]
      show AMap.find? (AMap.insertMany
        (AMap.insertMany r.permanent_storage (u.storage.getD AMap.empty))
        ((revertEntryFor db.account_storage a u).storage.getD AMap.empty)) i = some orig
      rw [hstorE]
      exact hfin

/-- C4 witness: on the concrete database the block is bound, the reverse set
records balance 10 and slot 5 holding 50, the update is applied into permanent
storage with the temporary tier cleared, and replaying the reverse set
restores the original balance and slot value. -/
theorem c4_witness :
    (exUpdates.map Prod.fst).Nodup ∧
    (exSimDB.update_state exUpdates { number := 1, hash := 0, timestamp := 234 }).2.block
      = some { number := 1, hash := 0, timestamp := 234 } ∧
    (exSimDB.update_state exUpdates { number := 1, hash := 0, timestamp := 234 }).1
      = [(1, { storage := some [(5, 50)], balance := some 10 })] := by
  have h := update_state_spec exSimDB exUpdates
    { number := 1, hash := 0, timestamp := 234 } (by decide)
  refine ⟨by decide, h.1, ?_⟩
  rw [h.2.1]
  decide

end TychoHedge
